import Mathlib

/-!
Verification development for the netstack3 IP fragmentation-reassembly core:
a shallow embedding of `ip/reassembly.rs` (fragment reassembly cache) and
`ip/path_mtu.rs` (path MTU cache), with theorems settling the specification
claims about them.

Machine integers (`u16`, `u32`, `usize`) are modelled as `Nat`; all the
arithmetic performed by the source (`offset + num_blocks - 1`, `now -
last_updated`, plateau comparisons) stays far below any overflow boundary or
is explicitly guarded by the source (`u16::try_from`), and the guards are
modelled directly.  `Instant` and `Duration` are modelled as `Nat` seconds;
`Instant::duration_since` is truncated subtraction, matching the source's
documented precondition that `now >= last_updated`.  Hash maps are modelled
as association lists (PMTU cache, which needs `retain`/`is_empty`) or as
functions to `Option` (fragment cache); `BTreeSet<(u16, u16)>` is modelled
as an ascending-sorted list with a sorted insertion.
-/

namespace Netstack3

/-! ## Path MTU cache (`ip/path_mtu.rs`) -/

/-- IP version parameter: the two address families `v4` and `v6`. -/
inductive IpVersion where
  | v4
  | v6
deriving DecidableEq, Repr

/-- `IPV4_MIN_MTU`: RFC 791 minimum MTU for an IPv4 path. -/
def IPV4_MIN_MTU : Nat := 68

/-- `IPV6_MIN_MTU`: RFC 8200 minimum MTU for an IPv6 link. -/
def IPV6_MIN_MTU : Nat := 1280

/-- `MAINTENANCE_PERIOD`: time between PMTU maintenance operations (1 hour). -/
def MAINTENANCE_PERIOD : Nat := 3600

/-- `PMTU_STALE_TIMEOUT`: time for a PMTU value to be considered stale (3 hours). -/
def PMTU_STALE_TIMEOUT : Nat := 10800

/-- `PMTU_PLATEAUS`: common MTU values from RFC 1191 section 7.1, descending. -/
def PMTU_PLATEAUS : List Nat :=
  [65535, 32000, 17914, 8166, 4352, 2002, 1492, 1280, 1006, 508, 296, 68]

/-- `min_mtu::<I>()`: the minimum MTU size for a specific IP version. -/
def min_mtu : IpVersion → Nat
  | .v4 => IPV4_MIN_MTU
  | .v6 => IPV6_MIN_MTU

/-- `PathMtuCacheKey`: a path is identified by (src_ip, dst_ip).
Addresses are modelled as `Nat`. -/
structure PathMtuCacheKey where
  src : Nat
  dst : Nat
deriving DecidableEq, Repr

/-- `PathMtuCacheData`: the cached PMTU and the instant it was last updated. -/
structure PathMtuCacheData where
  pmtu : Nat
  last_updated : Nat
deriving DecidableEq, Repr

/-- Association-list lookup, modelling `HashMap::get`. -/
def alookup {K V : Type} [DecidableEq K] (l : List (K × V)) (k : K) : Option V :=
  (l.find? (fun e => e.1 = k)).map (·.2)

/-- Association-list in-place value replacement, modelling `HashMap::get_mut`
followed by writes through the mutable reference. -/
def aupdate {K V : Type} [DecidableEq K] (l : List (K × V)) (k : K) (v : V) :
    List (K × V) :=
  l.map (fun e => if e.1 = k then (k, v) else e)

/-- `IpLayerPathMtuCache`: the per-version PMTU cache (a `HashMap` modelled as
an association list) together with the `timer_scheduled` flag. -/
structure IpLayerPathMtuCache where
  cache : List (PathMtuCacheKey × PathMtuCacheData)
  timer_scheduled : Bool
deriving DecidableEq, Repr

/-- `IpLayerPathMtuCache::new`. -/
def IpLayerPathMtuCache.new : IpLayerPathMtuCache :=
  { cache := [], timer_scheduled := false }

/-- `IpLayerPathMtuCache::get_pmtu`. -/
def get_pmtu (s : IpLayerPathMtuCache) (src_ip dst_ip : Nat) : Option Nat :=
  (alookup s.cache ⟨src_ip, dst_ip⟩).map (·.pmtu)

/-- `IpLayerPathMtuCache::get_last_updated`. -/
def get_last_updated (s : IpLayerPathMtuCache) (src_ip dst_ip : Nat) : Option Nat :=
  (alookup s.cache ⟨src_ip, dst_ip⟩).map (·.last_updated)

/-- `create_maintenance_timer`: sets `timer_scheduled` and schedules the
maintenance timer (the dispatcher side is tracked by the `Bool` returned at
call sites). -/
def create_maintenance_timer (s : IpLayerPathMtuCache) : IpLayerPathMtuCache :=
  { s with timer_scheduled := true }

/-- `update_pmtu_inner`: update the PMTU between `src_ip` and `dst_ip` if
`new_mtu` does not violate the IP-specific minimum.  Returns the Rust
`Result<Option<u32>, Option<u32>>`, the new cache state, and whether a
maintenance timer was scheduled by this call. -/
def update_pmtu_inner (ver : IpVersion) (now : Nat) (src_ip dst_ip new_mtu : Nat)
    (s : IpLayerPathMtuCache) :
    Except (Option Nat) (Option Nat) × IpLayerPathMtuCache × Bool :=
  if new_mtu < min_mtu ver then
    (.error (get_pmtu s src_ip dst_ip), s, false)
  else
    let key : PathMtuCacheKey := ⟨src_ip, dst_ip⟩
    let (ret, s1) :=
      match alookup s.cache key with
      | some data =>
          ((Except.ok (some data.pmtu) : Except (Option Nat) (Option Nat)),
            { s with cache := aupdate s.cache key ⟨new_mtu, now⟩ })
      | none =>
          (.ok none, { s with cache := (key, ⟨new_mtu, now⟩) :: s.cache })
    if s1.timer_scheduled then (ret, s1, false)
    else (ret, create_maintenance_timer s1, true)

/-- `update_pmtu`: same as `update_pmtu_inner` (the Rust wrapper only adds a
trace log statement). -/
def update_pmtu (ver : IpVersion) (now : Nat) (src_ip dst_ip new_mtu : Nat)
    (s : IpLayerPathMtuCache) :
    Except (Option Nat) (Option Nat) × IpLayerPathMtuCache × Bool :=
  update_pmtu_inner ver now src_ip dst_ip new_mtu s

/-- `update_pmtu_if_less`: update only when no prior PMTU exists or `new_mtu`
is less than the prior value; otherwise return `Ok(prev)` unchanged. -/
def update_pmtu_if_less (ver : IpVersion) (now : Nat) (src_ip dst_ip new_mtu : Nat)
    (s : IpLayerPathMtuCache) :
    Except (Option Nat) (Option Nat) × IpLayerPathMtuCache × Bool :=
  match get_pmtu s src_ip dst_ip with
  | none => update_pmtu ver now src_ip dst_ip new_mtu s
  | some mtu =>
      if new_mtu < mtu then update_pmtu ver now src_ip dst_ip new_mtu s
      else (.ok (some mtu), s, false)

/-- `next_lower_pmtu_plateau`: linear scan of `PMTU_PLATEAUS` for the first
value strictly below `start_mtu`. -/
def next_lower_pmtu_plateau (start_mtu : Nat) : Option Nat :=
  PMTU_PLATEAUS.find? (fun pmtu => pmtu < start_mtu)

/-- `update_pmtu_next_lower`: update the PMTU to the next lower plateau
estimate from `from_mtu`, if one exists. -/
def update_pmtu_next_lower (ver : IpVersion) (now : Nat) (src_ip dst_ip from_mtu : Nat)
    (s : IpLayerPathMtuCache) :
    Except (Option Nat) (Option Nat × Nat) × IpLayerPathMtuCache × Bool :=
  match next_lower_pmtu_plateau from_mtu with
  | some next_pmtu =>
      let r := update_pmtu_if_less ver now src_ip dst_ip next_pmtu s
      (r.1.map (fun x => (x, next_pmtu)), r.2.1, r.2.2)
  | none =>
      (.error (get_pmtu s src_ip dst_ip), s, false)

/-- `handle_pmtu_timer`: the maintenance sweep.  Clears `timer_scheduled`,
evicts every entry whose value is stale (`now - last_updated` at least
`PMTU_STALE_TIMEOUT`), and reschedules one maintenance timer iff entries
remain.  Returns the new state and whether a timer was scheduled. -/
def handle_pmtu_timer (now : Nat) (s : IpLayerPathMtuCache) :
    IpLayerPathMtuCache × Bool :=
  let s1 : IpLayerPathMtuCache := { s with timer_scheduled := false }
  let s2 : IpLayerPathMtuCache :=
    { s1 with cache :=
        s1.cache.filter (fun e => decide (now - e.2.last_updated < PMTU_STALE_TIMEOUT)) }
  if s2.cache.isEmpty then (s2, false)
  else (create_maintenance_timer s2, true)

/-- Successive `update_pmtu_if_less` calls for a fixed path, given as a list of
`(now, new_mtu)` requests. -/
def run_pmtu_updates (ver : IpVersion) (src_ip dst_ip : Nat) :
    IpLayerPathMtuCache → List (Nat × Nat) → IpLayerPathMtuCache
  | s, [] => s
  | s, (now, mtu) :: rest =>
      run_pmtu_updates ver src_ip dst_ip
        (update_pmtu_if_less ver now src_ip dst_ip mtu s).2.1 rest

/-! ## Fragment reassembly cache (`ip/reassembly.rs`) -/

/-- `REASSEMBLY_TIMEOUT_SECONDS`: maximum time from receipt of the first
fragment to reassembly of a packet. -/
def REASSEMBLY_TIMEOUT_SECONDS : Nat := 60

/-- `FRAGMENT_BLOCK_SIZE`: number of bytes per fragment block. -/
def FRAGMENT_BLOCK_SIZE : Nat := 8

/-- `MAX_FRAGMENT_BLOCKS`: maximum number of fragment blocks a packet can
have (the fragment-offset field is 13 bits wide). -/
def MAX_FRAGMENT_BLOCKS : Nat := 8191

/-- `FragmentCacheKey`: (source address, destination address, fragment id).
Addresses are modelled as `Nat`. -/
structure FragmentCacheKey where
  src : Nat
  dst : Nat
  id : Nat
deriving DecidableEq, Repr

/-- A fragmentable packet as seen by `process_fragment`: its addresses, the
`fragment_data()` triple `(id, fragment offset, more-fragments flag)` if a
fragment header is present, its body bytes, and the header bytes that
`get_header` (serializing `packet.builder()`) would produce.  Bytes are
modelled as `Nat`. -/
structure Packet where
  src : Nat
  dst : Nat
  fragment_data : Option (Nat × Nat × Bool)
  body : List Nat
  header : List Nat
deriving DecidableEq, Repr

/-- `FragmentCacheData`: per-key reassembly state.  `missing_blocks` models
the `BTreeSet<(u16, u16)>` as an ascending-sorted list; `body_fragments`
models the `BinaryHeap<PacketBodyFragment>` as a list of (offset, body)
pairs whose pop order is defined by `popMinFragment` below. -/
structure FragmentCacheData where
  missing_blocks : List (Nat × Nat)
  body_fragments : List (Nat × List Nat)
  header : Option (List Nat)
  total_size : Nat
deriving DecidableEq, Repr

/-- `FragmentCacheData::new`: all fragment blocks `(0, u16::MAX)` missing. -/
def FragmentCacheData.new : FragmentCacheData :=
  { missing_blocks := [(0, 65535)], body_fragments := [], header := none,
    total_size := 0 }

/-- Possible return values of `process_fragment`
(`FragmentProcessingState`). -/
inductive FragmentProcessingState where
  | NotNeeded (packet : Packet)
  | InvalidFragment
  | NeedMoreFragments
  | Ready (key : FragmentCacheKey) (packet_len : Nat)
deriving DecidableEq, Repr

/-- Possible errors of `reassemble_packet` (`FragmentReassemblyError`). -/
inductive FragmentReassemblyError where
  | MissingFragments
  | InvalidKey
  | PacketParsingError
deriving DecidableEq, Repr

/-- State of one version's fragment cache together with the dispatcher's
reassembly timers: `cache` models the `HashMap` and `timers` records, per
key, the duration of the scheduled reassembly timeout (if any). -/
structure FragmentCacheState where
  cache : FragmentCacheKey → Option FragmentCacheData
  timers : FragmentCacheKey → Option Nat

/-- Lexicographic comparison on block ranges, the `Ord` instance `BTreeSet`
sorts `(u16, u16)` elements by. -/
def rangeLe (x y : Nat × Nat) : Prop :=
  x.1 < y.1 ∨ (x.1 = y.1 ∧ x.2 ≤ y.2)

instance : DecidablePred (fun p : (Nat × Nat) × Nat × Nat => rangeLe p.1 p.2) :=
  fun p => by unfold rangeLe; infer_instance

instance (x y : Nat × Nat) : Decidable (rangeLe x y) := by
  unfold rangeLe; infer_instance

/-- Insertion into the ascending-sorted list modelling the `BTreeSet` of
missing block ranges (`BTreeSet::insert`). -/
def sortedInsert : List (Nat × Nat) → Nat × Nat → List (Nat × Nat)
  | [], x => [x]
  | y :: ys, x => if rangeLe x y then x :: y :: ys else y :: sortedInsert ys x

/-- `find_gap`: scan the missing-block ranges in ascending order for a gap
that entirely contains `fragment_blocks_range`.  A range that overlaps a gap
without being contained in it terminates the scan (the loop's `break`). -/
def find_gap : List (Nat × Nat) → Nat × Nat → Option (Nat × Nat)
  | [], _ => none
  | potential_gap :: rest, fragment_blocks_range =>
      if fragment_blocks_range.2 < potential_gap.1 then
        find_gap rest fragment_blocks_range
      else if fragment_blocks_range.1 > potential_gap.2 then
        find_gap rest fragment_blocks_range
      else if fragment_blocks_range.1 < potential_gap.1 ∨
          fragment_blocks_range.2 > potential_gap.2 then
        none
      else
        some potential_gap

/-- `IpLayerFragmentCache::get_or_create`: create a fresh entry and schedule
a reassembly timeout of `REASSEMBLY_TIMEOUT_SECONDS` when `key` is absent. -/
def get_or_create (s : FragmentCacheState) (key : FragmentCacheKey) :
    FragmentCacheState :=
  if (s.cache key).isSome then s
  else
    { cache := fun k => if k = key then some FragmentCacheData.new else s.cache k,
      timers := fun k =>
        if k = key then some REASSEMBLY_TIMEOUT_SECONDS else s.timers k }

/-- `IpLayerFragmentCache::process_fragment`. -/
def process_fragment (s : FragmentCacheState) (packet : Packet) :
    FragmentProcessingState × FragmentCacheState :=
  match packet.fragment_data with
  | none => (.NotNeeded packet, s)
  | some (id, offset, m_flag) =>
    if offset = 0 ∧ m_flag = false then (.NotNeeded packet, s)
    else if packet.body.length = 0 then (.NeedMoreFragments, s)
    else if m_flag ∧ packet.body.length % FRAGMENT_BLOCK_SIZE ≠ 0 then
      (.InvalidFragment, s)
    else
      let key : FragmentCacheKey := ⟨packet.src, packet.dst, id⟩
      let s1 := get_or_create s key
      let fragment_data := (s1.cache key).getD FragmentCacheData.new
      let num_fragment_blocks := 1 + (packet.body.length - 1) / FRAGMENT_BLOCK_SIZE
      -- `u16::try_from(offset + num_fragment_blocks - 1)` fails above 65535.
      if offset + num_fragment_blocks - 1 > 65535 then (.InvalidFragment, s1)
      else if offset + num_fragment_blocks - 1 > MAX_FRAGMENT_BLOCKS then
        (.InvalidFragment, s1)
      else
        let fragment_blocks_range := (offset, offset + num_fragment_blocks - 1)
        match find_gap fragment_data.missing_blocks fragment_blocks_range with
        | none =>
            -- Overlap: cancel the reassembly timeout and drop the entry.
            (.InvalidFragment,
              { cache := fun k => if k = key then none else s1.cache k,
                timers := fun k => if k = key then none else s1.timers k })
        | some found_gap =>
            let mb1 := fragment_data.missing_blocks.erase found_gap
            let mb2 :=
              if found_gap.1 < fragment_blocks_range.1 then
                sortedInsert mb1 (found_gap.1, fragment_blocks_range.1 - 1)
              else mb1
            let mb3 :=
              if found_gap.2 > fragment_blocks_range.2 ∧ m_flag then
                sortedInsert mb2 (fragment_blocks_range.2 + 1, found_gap.2)
              else mb2
            let (hdr, size1) :=
              if offset = 0 then
                (some packet.header, fragment_data.total_size + packet.header.length)
              else (fragment_data.header, fragment_data.total_size)
            let fd' : FragmentCacheData :=
              { missing_blocks := mb3,
                body_fragments := (offset, packet.body) :: fragment_data.body_fragments,
                header := hdr,
                total_size := size1 + packet.body.length }
            let s2 : FragmentCacheState :=
              { s1 with cache := fun k => if k = key then some fd' else s1.cache k }
            if fd'.missing_blocks.isEmpty then
              (.Ready key fd'.total_size, s2)
            else (.NeedMoreFragments, s2)

/-- Pop order of the `BinaryHeap<PacketBodyFragment>`: the heap stores
`(-offset, body)` and pops the maximum, so it yields the fragment with the
least offset.  `popMinFragment` removes one fragment of minimal offset
(preferring the earliest stored among equals) and returns it together with
the remaining fragments. -/
def popMinFragment : List (Nat × List Nat) →
    Option ((Nat × List Nat) × List (Nat × List Nat))
  | [] => none
  | x :: xs =>
    match popMinFragment xs with
    | none => some (x, [])
    | some (m, rest) =>
        if x.1 ≤ m.1 then some (x, xs) else some (m, x :: rest)

/-- `popMinFragment` returns `none` exactly on the empty heap. -/
theorem popMinFragment_eq_none (l : List (Nat × List Nat)) :
    popMinFragment l = none ↔ l = [] := by
  cases l with
  | nil => simp [popMinFragment]
  | cons x xs =>
    simp only [popMinFragment]
    cases hxs : popMinFragment xs with
    | none => simp
    | some p => obtain ⟨m, rest⟩ := p; by_cases hle : x.1 ≤ m.1 <;> simp [hle]

/-- Length of the rest returned by `popMinFragment`. -/
theorem popMinFragment_length : ∀ (l : List (Nat × List Nat)) m rest,
    popMinFragment l = some (m, rest) → rest.length + 1 = l.length := by
  intro l
  induction l with
  | nil => intro m rest h; simp [popMinFragment] at h
  | cons x xs ih =>
    intro m rest h
    simp only [popMinFragment] at h
    cases hxs : popMinFragment xs with
    | none =>
      rw [hxs] at h
      have hnil : xs = [] := (popMinFragment_eq_none xs).1 hxs
      subst hnil
      simp at h
      simp [← h.2]
    | some p =>
      obtain ⟨m', rest'⟩ := p
      rw [hxs] at h
      by_cases hle : x.1 ≤ m'.1
      · simp [hle] at h
        simp [← h.2]
      · simp [hle] at h
        have := ih m' rest' hxs
        simp [← h.2, ← this]

/-- The sequence in which the body-fragment heap yields its elements. -/
def popOrder (l : List (Nat × List Nat)) : List (Nat × List Nat) :=
  match h : popMinFragment l with
  | none => []
  | some (m, rest) => m :: popOrder rest
termination_by l.length
decreasing_by
  have := popMinFragment_length l m rest h
  omega

/-- Model of `copy_from_slice` into `buffer[i .. i + src.length]`. -/
def writeAt (buf : List Nat) (i : Nat) (src : List Nat) : List Nat :=
  buf.take i ++ src ++ buf.drop (i + src.length)

/-- The body-copying loop of `reassemble_packet_helper`: pop fragments in
ascending offset order, copying each body at the current byte count.
Returns the buffer and the final byte count. -/
def assembleBodies (bytes : List Nat) (byte_count : Nat)
    (body_fragments : List (Nat × List Nat)) : List Nat × Nat :=
  match h : popMinFragment body_fragments with
  | none => (bytes, byte_count)
  | some (f, rest) =>
      assembleBodies (writeAt bytes byte_count f.2) (byte_count + f.2.length) rest
termination_by body_fragments.length
decreasing_by
  have := popMinFragment_length body_fragments f rest h
  omega

/-- `reassemble_packet_helper` for IPv4 (the IPv6 arm of the source is
`unimplemented!`).  `chk` abstracts `Checksum` (ones-complement checksum of a
byte sequence, yielding a `u16`) and `parse` abstracts re-parsing the
assembled buffer (`Ipv4Packet::parse` succeeding).  Returns the assembled
buffer on success. -/
def reassemble_packet_helper_v4 (chk : List Nat → Nat) (parse : List Nat → Bool)
    (buffer : List Nat) (header : List Nat)
    (body_fragments : List (Nat × List Nat)) :
    Except FragmentReassemblyError (List Nat) :=
  let bytes0 := writeAt buffer 0 header
  let (bytes1, byte_count) := assembleBodies bytes0 header.length body_fragments
  if byte_count > 65535 then .error .PacketParsingError
  else
    -- Update the total length field (big endian, bytes 2..4).
    let bytes2 := writeAt bytes1 2 [byte_count / 256, byte_count % 256]
    -- Zero out the flags and fragment offset fields (bytes 4..8).
    let bytes3 := writeAt bytes2 4 [0, 0, 0, 0]
    -- Recompute the header checksum over the header bytes, excluding the
    -- checksum field itself (bytes 10..12).
    let c := chk (bytes3.take 10 ++ ((bytes3.drop 12).take (header.length - 12)))
    let bytes4 := writeAt bytes3 10 [c / 256 % 256, c % 256]
    if parse bytes4 then .ok bytes4 else .error .PacketParsingError

/-- `IpLayerFragmentCache::reassemble_packet`. -/
def reassemble_packet (chk : List Nat → Nat) (parse : List Nat → Bool)
    (s : FragmentCacheState) (key : FragmentCacheKey) (buffer : List Nat) :
    Except FragmentReassemblyError (List Nat) × FragmentCacheState :=
  match s.cache key with
  | none => (.error .InvalidKey, s)
  | some fragment_data =>
    if ¬fragment_data.missing_blocks.isEmpty then (.error .MissingFragments, s)
    else
      -- Cancel the reassembly timeout and remove the cache entry, then
      -- attempt the actual reassembly.
      let s' : FragmentCacheState :=
        { cache := fun k => if k = key then none else s.cache k,
          timers := fun k => if k = key then none else s.timers k }
      (reassemble_packet_helper_v4 chk parse buffer
        (fragment_data.header.getD []) fragment_data.body_fragments, s')

/-- `IpLayerFragmentCache::handle_reassembly_timeout`: remove the reassembly
data for `key`. -/
def handle_reassembly_timeout (s : FragmentCacheState) (key : FragmentCacheKey) :
    FragmentCacheState :=
  { s with cache := fun k => if k = key then none else s.cache k }

/-- A reassembly timer firing: the dispatcher consumes the scheduled timer
for `key` and delivers it to `handle_reassembly_timeout`. -/
def fire_reassembly_timeout (s : FragmentCacheState) (key : FragmentCacheKey) :
    FragmentCacheState :=
  handle_reassembly_timeout
    { s with timers := fun k => if k = key then none else s.timers k } key

/-! ## Helper lemmas -/

/-- On a descending list, `find?` of `(· < s)` returns a greatest element
strictly below `s`. -/
theorem find_lt_of_descending (s : Nat) :
    ∀ l : List Nat, l.Pairwise (fun a b => b ≤ a) →
      ∀ v, l.find? (fun p => decide (p < s)) = some v →
        ∀ p ∈ l, p < s → p ≤ v := by
  intro l
  induction l with
  | nil => intro _ v h; simp at h
  | cons x xs ih =>
    intro hp v hv p hmem hps
    rw [List.find?_cons] at hv
    by_cases hx : x < s
    · simp [hx] at hv
      subst hv
      rcases List.mem_cons.1 hmem with rfl | hmem'
      · exact le_refl p
      · exact (List.pairwise_cons.1 hp).1 p hmem'
    · simp [hx] at hv
      rcases List.mem_cons.1 hmem with rfl | hmem'
      · exact absurd hps hx
      · exact ih (List.pairwise_cons.1 hp).2 v hv p hmem' hps

/-- Lookup at the head key. -/
theorem alookup_cons_eq {K V : Type} [DecidableEq K] (e : K × V)
    (l : List (K × V)) (k : K) (h : e.1 = k) : alookup (e :: l) k = some e.2 := by
  simp [alookup, List.find?_cons, h]

/-- Lookup skips a head with a different key. -/
theorem alookup_cons_ne {K V : Type} [DecidableEq K] (e : K × V)
    (l : List (K × V)) (k : K) (h : ¬e.1 = k) : alookup (e :: l) k = alookup l k := by
  simp [alookup, List.find?_cons, h]

/-- Replacing the value at `key` is visible to a lookup of `key` whenever the
key was present. -/
theorem alookup_aupdate_self {K V : Type} [DecidableEq K] (l : List (K × V))
    (key : K) (v : V) (w : V) (h : alookup l key = some w) :
    alookup (aupdate l key v) key = some v := by
  induction l with
  | nil => simp [alookup] at h
  | cons e es ih =>
    by_cases h1 : e.1 = key
    · simp only [aupdate, List.map_cons, if_pos h1]
      exact alookup_cons_eq _ _ _ rfl
    · simp only [aupdate, List.map_cons, if_neg h1]
      rw [alookup_cons_ne _ _ _ h1] at h
      rw [alookup_cons_ne _ _ _ h1]
      exact ih h

/-- Replacing the value at `key` does not affect lookups of other keys. -/
theorem alookup_aupdate_other {K V : Type} [DecidableEq K] (l : List (K × V))
    (key k : K) (v : V) (h : ¬k = key) :
    alookup (aupdate l key v) k = alookup l k := by
  induction l with
  | nil => simp [alookup, aupdate]
  | cons e es ih =>
    by_cases h1 : e.1 = key
    · simp only [aupdate, List.map_cons, if_pos h1]
      rw [alookup_cons_ne ((key, v)) _ _ (fun hc => h hc.symm),
        alookup_cons_ne _ _ _ (fun hc => h (hc.symm.trans h1))]
      exact ih
    · simp only [aupdate, List.map_cons, if_neg h1]
      by_cases h2 : e.1 = k
      · rw [alookup_cons_eq _ _ _ h2, alookup_cons_eq _ _ _ h2]
      · rw [alookup_cons_ne _ _ _ h2, alookup_cons_ne _ _ _ h2]
        exact ih

/-- Lookup fails exactly when the key is absent. -/
theorem alookup_eq_none {K V : Type} [DecidableEq K] (l : List (K × V)) (k : K) :
    alookup l k = none ↔ k ∉ l.map Prod.fst := by
  simp only [alookup, Option.map_eq_none']
  rw [List.find?_eq_none]
  constructor
  · intro h hk
    obtain ⟨e, hmem, hek⟩ := List.mem_map.1 hk
    have := h e hmem
    simp [hek] at this
  · intro h e hmem
    simp only [decide_eq_true_eq]
    intro hek
    exact h (List.mem_map.2 ⟨e, hmem, hek⟩)

/-- Lookup through `List.filter` on an association list with distinct keys:
the looked-up value survives iff it passes the filter. -/
theorem alookup_filter {K V : Type} [DecidableEq K] (l : List (K × V))
    (q : K × V → Bool) (hnd : (l.map Prod.fst).Nodup) (k : K) :
    alookup (l.filter q) k =
      (alookup l k).bind (fun v => if q (k, v) then some v else none) := by
  induction l with
  | nil => simp [alookup]
  | cons e es ih =>
    obtain ⟨a, b⟩ := e
    have hnd' : (es.map Prod.fst).Nodup := (List.nodup_cons.1 hnd).2
    have hnotin : a ∉ es.map Prod.fst := (List.nodup_cons.1 hnd).1
    by_cases hq : q (a, b) = true
    · rw [List.filter_cons_of_pos hq]
      by_cases hk : a = k
      · subst hk
        rw [alookup_cons_eq _ _ _ rfl, alookup_cons_eq _ _ _ rfl]
        simp [hq]
      · rw [alookup_cons_ne _ _ _ hk, alookup_cons_ne _ _ _ hk]
        exact ih hnd'
    · rw [List.filter_cons_of_neg (by simpa using hq)]
      by_cases hk : a = k
      · subst hk
        rw [alookup_cons_eq _ _ _ rfl]
        have hnone : alookup es a = none := (alookup_eq_none es a).2 hnotin
        rw [ih hnd', hnone]
        simp [hq]
      · rw [alookup_cons_ne _ _ _ hk]
        exact ih hnd'

/-- A successful lookup means the list is non-empty. -/
theorem alookup_ne_nil {K V : Type} [DecidableEq K] (l : List (K × V))
    (k : K) (v : V) (h : alookup l k = some v) : l ≠ [] := by
  intro hnil
  subst hnil
  simp [alookup] at h

/-- The cached PMTU for the path after `update_pmtu_inner`: unchanged on a
rejected under-minimum update, `new_mtu` otherwise. -/
theorem update_pmtu_inner_get (ver : IpVersion) (now src_ip dst_ip new_mtu : Nat)
    (s : IpLayerPathMtuCache) :
    get_pmtu (update_pmtu_inner ver now src_ip dst_ip new_mtu s).2.1
        src_ip dst_ip =
      if new_mtu < min_mtu ver then get_pmtu s src_ip dst_ip else some new_mtu := by
  by_cases hlt : new_mtu < min_mtu ver
  · simp [update_pmtu_inner, hlt]
  · rw [if_neg hlt]
    cases hlook : alookup s.cache (⟨src_ip, dst_ip⟩ : PathMtuCacheKey) with
    | some data =>
      have hc : (update_pmtu_inner ver now src_ip dst_ip new_mtu s).2.1.cache =
          aupdate s.cache ⟨src_ip, dst_ip⟩ ⟨new_mtu, now⟩ := by
        cases hts : s.timer_scheduled <;>
          simp [update_pmtu_inner, hlt, hlook, hts, create_maintenance_timer]
      rw [get_pmtu, hc, alookup_aupdate_self _ _ _ _ hlook]
      rfl
    | none =>
      have hc : (update_pmtu_inner ver now src_ip dst_ip new_mtu s).2.1.cache =
          ((⟨src_ip, dst_ip⟩ : PathMtuCacheKey),
            (⟨new_mtu, now⟩ : PathMtuCacheData)) :: s.cache := by
        cases hts : s.timer_scheduled <;>
          simp [update_pmtu_inner, hlt, hlook, hts, create_maintenance_timer]
      rw [get_pmtu, hc, alookup_cons_eq _ _ _ rfl]
      rfl

/-- An under-minimum update leaves the whole state untouched. -/
theorem update_pmtu_inner_reject (ver : IpVersion) (now src_ip dst_ip new_mtu : Nat)
    (s : IpLayerPathMtuCache) (hlt : new_mtu < min_mtu ver) :
    update_pmtu_inner ver now src_ip dst_ip new_mtu s =
      (.error (get_pmtu s src_ip dst_ip), s, false) := by
  simp [update_pmtu_inner, hlt]

/-- Monotonicity of one `update_pmtu_if_less` step on the stored value for
the path. -/
theorem update_pmtu_if_less_step (ver : IpVersion) (now src_ip dst_ip new_mtu : Nat)
    (s : IpLayerPathMtuCache) :
    (get_pmtu s src_ip dst_ip = none →
      get_pmtu (update_pmtu_if_less ver now src_ip dst_ip new_mtu s).2.1
          src_ip dst_ip = none ∨
        (get_pmtu (update_pmtu_if_less ver now src_ip dst_ip new_mtu s).2.1
            src_ip dst_ip = some new_mtu ∧ min_mtu ver ≤ new_mtu)) ∧
    (∀ p, get_pmtu s src_ip dst_ip = some p →
      ∃ q, get_pmtu (update_pmtu_if_less ver now src_ip dst_ip new_mtu s).2.1
          src_ip dst_ip = some q ∧ q ≤ p ∧ (min_mtu ver ≤ p → min_mtu ver ≤ q)) := by
  constructor
  · intro hnone
    simp only [update_pmtu_if_less, hnone]
    by_cases hlt : new_mtu < min_mtu ver
    · left
      rw [update_pmtu, update_pmtu_inner_reject ver now src_ip dst_ip new_mtu s hlt]
      exact hnone
    · right
      rw [update_pmtu, update_pmtu_inner_get, if_neg hlt]
      exact ⟨rfl, not_lt.1 hlt⟩
  · intro p hp
    simp only [update_pmtu_if_less, hp]
    by_cases hcmp : new_mtu < p
    · rw [if_pos hcmp, update_pmtu]
      by_cases hlt : new_mtu < min_mtu ver
      · refine ⟨p, ?_, le_refl p, fun h => h⟩
        rw [update_pmtu_inner_reject ver now src_ip dst_ip new_mtu s hlt]
        exact hp
      · refine ⟨new_mtu, ?_, le_of_lt hcmp, fun _ => not_lt.1 hlt⟩
        rw [update_pmtu_inner_get, if_neg hlt]
    · rw [if_neg hcmp]
      exact ⟨p, hp, le_refl p, fun h => h⟩

/-- Well-formedness of a gap list: every range is non-empty (`lo ≤ hi`). -/
def GapsWF (l : List (Nat × Nat)) : Prop := ∀ g ∈ l, g.1 ≤ g.2

/-- Pairwise disjointness of the inclusive ranges in a gap list. -/
def GapsDisjoint (l : List (Nat × Nat)) : Prop :=
  l.Pairwise (fun a b => a.2 < b.1 ∨ b.2 < a.1)

/-- A found gap is a member of the gap list. -/
theorem find_gap_mem : ∀ (l : List (Nat × Nat)) (r g : Nat × Nat),
    find_gap l r = some g → g ∈ l := by
  intro l
  induction l with
  | nil => intro r g h; simp [find_gap] at h
  | cons x xs ih =>
    intro r g h
    simp only [find_gap] at h
    split at h
    · exact List.mem_cons_of_mem x (ih r g h)
    · split at h
      · exact List.mem_cons_of_mem x (ih r g h)
      · split at h
        · cases h
        · cases h
          exact List.mem_cons_self x xs

/-- Membership in the sorted-insertion model of `BTreeSet::insert`. -/
theorem mem_sortedInsert (l : List (Nat × Nat)) (a x : Nat × Nat) :
    x ∈ sortedInsert l a ↔ x = a ∨ x ∈ l := by
  induction l with
  | nil => simp [sortedInsert]
  | cons y ys ih =>
    simp only [sortedInsert]
    split
    · simp
    · simp only [List.mem_cons, ih]
      tauto

/-- A well-formed pairwise-disjoint gap list has no duplicates. -/
theorem gaps_nodup (l : List (Nat × Nat)) (hwf : GapsWF l)
    (hdisj : GapsDisjoint l) : l.Nodup := by
  have := List.Pairwise.imp_of_mem (l := l)
    (R := fun a b : Nat × Nat => a.2 < b.1 ∨ b.2 < a.1) (S := fun a b => a ≠ b)
    ?_ hdisj
  · exact this
  · intro a b ha _ hr heq
    subst heq
    have := hwf a ha
    omega

/-- `find_gap` over a well-formed, pairwise-disjoint gap list returns `some g`
exactly when `g` is a member that entirely contains the queried range. -/
theorem find_gap_spec (mb : List (Nat × Nat)) (o e : Nat)
    (hwf : GapsWF mb) (hdisj : GapsDisjoint mb) (hoe : o ≤ e) :
    ∀ g, find_gap mb (o, e) = some g ↔ (g ∈ mb ∧ g.1 ≤ o ∧ e ≤ g.2) := by
  induction mb with
  | nil => intro g; simp [find_gap]
  | cons x xs ih =>
    have hwf' : GapsWF xs := fun g hg => hwf g (List.mem_cons_of_mem x hg)
    have hdisj' : GapsDisjoint xs := (List.pairwise_cons.1 hdisj).2
    have hxall : ∀ g ∈ xs, x.2 < g.1 ∨ g.2 < x.1 := (List.pairwise_cons.1 hdisj).1
    intro g
    simp only [find_gap]
    by_cases hA : e < x.1
    · rw [if_pos hA, ih hwf' hdisj' g]
      constructor
      · rintro ⟨hmem, hcont⟩
        exact ⟨List.mem_cons_of_mem x hmem, hcont⟩
      · rintro ⟨hmem, hlo, hhi⟩
        rcases List.mem_cons.1 hmem with rfl | hmem'
        · omega
        · exact ⟨hmem', hlo, hhi⟩
    rw [if_neg hA]
    by_cases hB : o > x.2
    · rw [if_pos hB, ih hwf' hdisj' g]
      constructor
      · rintro ⟨hmem, hcont⟩
        exact ⟨List.mem_cons_of_mem x hmem, hcont⟩
      · rintro ⟨hmem, hlo, hhi⟩
        rcases List.mem_cons.1 hmem with rfl | hmem'
        · omega
        · exact ⟨hmem', hlo, hhi⟩
    rw [if_neg hB]
    by_cases hC : o < x.1 ∨ e > x.2
    · rw [if_pos hC]
      constructor
      · intro h; cases h
      · rintro ⟨hmem, hlo, hhi⟩
        rcases List.mem_cons.1 hmem with rfl | hmem'
        · omega
        · rcases hxall g hmem' with hx | hx <;> omega
    · rw [if_neg hC]
      constructor
      · intro h
        cases h
        exact ⟨List.mem_cons_self x xs, by omega, by omega⟩
      · rintro ⟨hmem, hlo, hhi⟩
        rcases List.mem_cons.1 hmem with rfl | hmem'
        · rfl
        · rcases hxall g hmem' with hx | hx <;> omega

/-- Membership in the updated gap list produced by an accepted fragment:
the found gap is removed, the left remainder `[glo, o-1]` is present iff
`glo < o`, and the right remainder `[e+1, ghi]` is present iff the
more-fragments flag is set and `ghi > e`. -/
theorem gap_update_mem (mbs : List (Nat × Nat)) (g : Nat × Nat) (o e : Nat)
    (m : Bool) (hnd : mbs.Nodup) :
    ∀ r, r ∈ (if g.2 > e ∧ m = true then
        sortedInsert
          (if g.1 < o then sortedInsert (mbs.erase g) (g.1, o - 1)
            else mbs.erase g) (e + 1, g.2)
      else
        if g.1 < o then sortedInsert (mbs.erase g) (g.1, o - 1)
        else mbs.erase g) ↔
      ((r ∈ mbs ∧ r ≠ g) ∨ (g.1 < o ∧ r = (g.1, o - 1)) ∨
        (g.2 > e ∧ m = true ∧ r = (e + 1, g.2))) := by
  intro r
  have herase : r ∈ mbs.erase g ↔ r ≠ g ∧ r ∈ mbs := List.Nodup.mem_erase_iff hnd
  by_cases hc1 : g.2 > e ∧ m = true
  · rw [if_pos hc1, mem_sortedInsert]
    by_cases hc2 : g.1 < o
    · rw [if_pos hc2, mem_sortedInsert, herase]
      simp only [hc1.1, hc1.2, hc2, true_and]
      tauto
    · rw [if_neg hc2, herase]
      simp only [hc1.1, hc1.2, hc2, true_and, false_and, or_false]
      tauto
  · rw [if_neg hc1]
    have hc1' : ¬(g.2 > e ∧ m = true ∧ r = (e + 1, g.2)) := by tauto
    by_cases hc2 : g.1 < o
    · rw [if_pos hc2, mem_sortedInsert, herase]
      simp only [hc2, true_and, hc1', or_false]
      tauto
    · rw [if_neg hc2, herase]
      simp only [hc2, false_and, hc1', or_false]
      tauto

/-- The popped fragment together with the rest is a permutation of the heap,
and the popped fragment's offset is minimal. -/
theorem popMinFragment_spec : ∀ (l : List (Nat × List Nat)) f rest,
    popMinFragment l = some (f, rest) →
    (f :: rest).Perm l ∧ ∀ y ∈ l, f.1 ≤ y.1 := by
  intro l
  induction l with
  | nil => intro f rest h; simp [popMinFragment] at h
  | cons x xs ih =>
    intro f rest h
    simp only [popMinFragment] at h
    cases hxs : popMinFragment xs with
    | none =>
      rw [hxs] at h
      have hnil : xs = [] := (popMinFragment_eq_none xs).1 hxs
      subst hnil
      simp at h
      obtain ⟨rfl, rfl⟩ := h
      exact ⟨List.Perm.refl _, by simp⟩
    | some p =>
      obtain ⟨m', rest'⟩ := p
      rw [hxs] at h
      obtain ⟨hperm', hmin'⟩ := ih m' rest' hxs
      by_cases hle : x.1 ≤ m'.1
      · simp [hle] at h
        obtain ⟨rfl, rfl⟩ := h
        refine ⟨List.Perm.refl _, ?_⟩
        intro y hy
        rcases List.mem_cons.1 hy with rfl | hy'
        · exact le_refl _
        · exact le_trans hle (hmin' y hy')
      · simp [hle] at h
        obtain ⟨rfl, rfl⟩ := h
        constructor
        · exact List.Perm.trans (List.Perm.swap x m' rest')
            (List.Perm.cons x hperm')
        · intro y hy
          rcases List.mem_cons.1 hy with rfl | hy'
          · omega
          · exact hmin' y hy'

/-- Unfolding of `popOrder` on an empty heap. -/
theorem popOrder_eq_nil (l : List (Nat × List Nat))
    (h : popMinFragment l = none) : popOrder l = [] := by
  conv_lhs => unfold popOrder
  split
  · rfl
  · rename_i m rest h2
    rw [h] at h2
    cases h2

/-- Unfolding of `popOrder` on a non-empty heap. -/
theorem popOrder_eq_cons (l : List (Nat × List Nat)) (m : Nat × List Nat)
    (rest : List (Nat × List Nat)) (h : popMinFragment l = some (m, rest)) :
    popOrder l = m :: popOrder rest := by
  conv_lhs => unfold popOrder
  split
  · rename_i h2
    rw [h] at h2
    cases h2
  · rename_i m2 rest2 h2
    rw [h] at h2
    cases h2
    rfl

/-- The pop order is a permutation of the heap contents. -/
theorem popOrder_perm : ∀ (n : Nat) (l : List (Nat × List Nat)),
    l.length ≤ n → (popOrder l).Perm l := by
  intro n
  induction n with
  | zero =>
    intro l hl
    have : l = [] := List.length_eq_zero.1 (Nat.le_zero.1 hl)
    subst this
    rw [popOrder_eq_nil _ ((popMinFragment_eq_none []).2 rfl)]
  | succ n ih =>
    intro l hl
    cases hp : popMinFragment l with
    | none =>
      have : l = [] := (popMinFragment_eq_none l).1 hp
      subst this
      rw [popOrder_eq_nil _ hp]
    | some p =>
      obtain ⟨m, rest⟩ := p
      rw [popOrder_eq_cons l m rest hp]
      have hlen := popMinFragment_length l m rest hp
      have hperm := (popMinFragment_spec l m rest hp).1
      exact List.Perm.trans (List.Perm.cons m (ih rest (by omega))) hperm

/-- The pop order is sorted by ascending fragment offset. -/
theorem popOrder_sorted : ∀ (n : Nat) (l : List (Nat × List Nat)),
    l.length ≤ n → (popOrder l).Pairwise (fun a b => a.1 ≤ b.1) := by
  intro n
  induction n with
  | zero =>
    intro l hl
    have : l = [] := List.length_eq_zero.1 (Nat.le_zero.1 hl)
    subst this
    rw [popOrder_eq_nil _ ((popMinFragment_eq_none []).2 rfl)]
    exact List.Pairwise.nil
  | succ n ih =>
    intro l hl
    cases hp : popMinFragment l with
    | none =>
      rw [popOrder_eq_nil _ hp]
      exact List.Pairwise.nil
    | some p =>
      obtain ⟨m, rest⟩ := p
      rw [popOrder_eq_cons l m rest hp]
      have hlen := popMinFragment_length l m rest hp
      obtain ⟨hperm, hmin⟩ := popMinFragment_spec l m rest hp
      refine List.pairwise_cons.2 ⟨?_, ih rest (by omega)⟩
      intro y hy
      have hyrest : y ∈ rest := (popOrder_perm rest.length rest le_rfl).mem_iff.1 hy
      have hyl : y ∈ l := hperm.mem_iff.1 (List.mem_cons_of_mem m hyrest)
      exact hmin y hyl

/-- Writing the empty slice changes nothing. -/
theorem writeAt_nil (buf : List Nat) (i : Nat) : writeAt buf i [] = buf := by
  simp [writeAt]

/-- The length of a buffer after a write. -/
theorem writeAt_length (buf : List Nat) (i : Nat) (src : List Nat)
    (h : i ≤ buf.length) :
    (writeAt buf i src).length = max buf.length (i + src.length) := by
  simp [writeAt]
  omega

/-- Two adjacent writes collapse to one write of the concatenation. -/
theorem writeAt_writeAt (buf : List Nat) (i : Nat) (a c : List Nat)
    (h : i ≤ buf.length) :
    writeAt (writeAt buf i a) (i + a.length) c = writeAt buf i (a ++ c) := by
  have h1 : (buf.take i ++ a).length = i + a.length := by
    simp
    omega
  have hX1 : (buf.take i ++ a ++ buf.drop (i + a.length)).take (i + a.length) =
      buf.take i ++ a := by
    conv_lhs => rw [← h1]
    exact List.take_left _ _
  have hX2 : (buf.take i ++ a ++ buf.drop (i + a.length)).drop (i + a.length) =
      buf.drop (i + a.length) := by
    conv_lhs => rw [← h1]
    rw [List.drop_left, h1]
  unfold writeAt
  simp only [List.length_append]
  rw [← Nat.add_assoc, hX1, ← List.drop_drop, hX2, List.drop_drop]
  simp [List.append_assoc]

/-- The copying loop writes the heap's pop order, concatenated, at the
starting byte count, and returns the byte count advanced by the total body
size. -/
theorem assembleBodies_spec : ∀ (n : Nat) (frags : List (Nat × List Nat))
    (bytes : List Nat) (pos : Nat), frags.length ≤ n → pos ≤ bytes.length →
    assembleBodies bytes pos frags =
      (writeAt bytes pos (((popOrder frags).map Prod.snd).join),
        pos + (((popOrder frags).map Prod.snd).join).length) := by
  intro n
  induction n with
  | zero =>
    intro frags bytes pos hn hpos
    have : frags = [] := List.length_eq_zero.1 (Nat.le_zero.1 hn)
    subst this
    rw [popOrder_eq_nil _ ((popMinFragment_eq_none []).2 rfl)]
    simp only [List.map_nil, List.join_nil, List.length_nil, Nat.add_zero,
      writeAt_nil]
    unfold assembleBodies
    split
    · rfl
    · rename_i f rest h2
      rw [(popMinFragment_eq_none []).2 rfl] at h2
      cases h2
  | succ n ih =>
    intro frags bytes pos hn hpos
    cases hp : popMinFragment frags with
    | none =>
      have : frags = [] := (popMinFragment_eq_none frags).1 hp
      subst this
      rw [popOrder_eq_nil _ hp]
      simp only [List.map_nil, List.join_nil, List.length_nil, Nat.add_zero,
        writeAt_nil]
      unfold assembleBodies
      split
      · rfl
      · rename_i f rest h2
        rw [hp] at h2
        cases h2
    | some p =>
      obtain ⟨f, rest⟩ := p
      have hlen := popMinFragment_length frags f rest hp
      have hstep : assembleBodies bytes pos frags =
          assembleBodies (writeAt bytes pos f.2) (pos + f.2.length) rest := by
        conv_lhs => unfold assembleBodies
        split
        · rename_i h2
          rw [hp] at h2
          cases h2
        · rename_i f2 rest2 h2
          rw [hp] at h2
          cases h2
          rfl
      rw [hstep, popOrder_eq_cons frags f rest hp]
      have hpos' : pos + f.2.length ≤ (writeAt bytes pos f.2).length := by
        rw [writeAt_length bytes pos f.2 hpos]
        omega
      rw [ih rest (writeAt bytes pos f.2) (pos + f.2.length) (by omega) hpos']
      rw [writeAt_writeAt bytes pos f.2 _ hpos]
      simp only [List.map_cons, List.join_cons, List.length_append]
      rw [Nat.add_assoc]

/-- Pointwise content of a buffer after an in-bounds write. -/
theorem writeAt_getElem (buf : List Nat) (i : Nat) (src : List Nat) (j : Nat)
    (h : i + src.length ≤ buf.length) :
    (writeAt buf i src)[j]? =
      if i ≤ j ∧ j < i + src.length then src[j - i]? else buf[j]? := by
  have hti : (buf.take i).length = i := by simp; omega
  unfold writeAt
  rw [List.append_assoc, List.getElem?_append, hti]
  by_cases hj1 : j < i
  · rw [if_pos hj1, if_neg (by omega), List.getElem?_take, if_pos hj1]
  · rw [if_neg hj1, List.getElem?_append]
    by_cases hj2 : j - i < src.length
    · rw [if_pos hj2, if_pos (by omega)]
    · rw [if_neg hj2, if_neg (by omega), List.getElem?_drop]
      congr 1
      omega

/-- A write at position `i` leaves the first `i` bytes unchanged. -/
theorem writeAt_take_prefix (buf : List Nat) (i : Nat) (src : List Nat)
    (h : i ≤ buf.length) : (writeAt buf i src).take i = buf.take i := by
  unfold writeAt
  rw [List.append_assoc, List.take_append_of_le_length (by simp; omega),
    List.take_take]
  simp

/-- A write at position `i` leaves the bytes from `i + src.length` on
unchanged. -/
theorem writeAt_drop_suffix (buf : List Nat) (i : Nat) (src : List Nat)
    (h : i + src.length ≤ buf.length) :
    (writeAt buf i src).drop (i + src.length) = buf.drop (i + src.length) := by
  have h1 : (buf.take i ++ src).length = i + src.length := by simp; omega
  unfold writeAt
  conv_lhs => rw [← h1]
  rw [List.drop_left, h1]

/-- The helper's only error is `PacketParsingError`, and it returns `Ok` only
when the assembled buffer re-parses. -/
theorem reassemble_helper_outcomes (chk : List Nat → Nat)
    (parse : List Nat → Bool) (buffer header : List Nat)
    (frags : List (Nat × List Nat)) :
    (∀ e, reassemble_packet_helper_v4 chk parse buffer header frags =
      .error e → e = .PacketParsingError) ∧
    (∀ out, reassemble_packet_helper_v4 chk parse buffer header frags =
      .ok out → parse out = true) := by
  constructor
  · intro e he
    simp only [reassemble_packet_helper_v4] at he
    split at he
    · cases he; rfl
    · split at he
      · cases he
      · cases he; rfl
  · intro out hout
    simp only [reassemble_packet_helper_v4] at hout
    split at hout
    · cases hout
    · split at hout
      · cases hout
        assumption
      · cases hout

/-! ## Claim theorems -/

/-- C8: `next_lower_pmtu_plateau(x)` returns the greatest element of
`PMTU_PLATEAUS` strictly less than `x` and is `None` exactly when `x ≤ 68`;
`update_pmtu_next_lower` returns `Err(get_pmtu(src, dst))` when no plateau
exists and otherwise calls `update_pmtu_if_less` with the chosen plateau,
pairing the result with it. -/
theorem claim_C8 (ver : IpVersion) (now src_ip dst_ip from_mtu : Nat)
    (s : IpLayerPathMtuCache) :
    (next_lower_pmtu_plateau from_mtu = none ↔ from_mtu ≤ 68) ∧
    (∀ v, next_lower_pmtu_plateau from_mtu = some v →
      v ∈ PMTU_PLATEAUS ∧ v < from_mtu ∧
        ∀ p ∈ PMTU_PLATEAUS, p < from_mtu → p ≤ v) ∧
    (from_mtu ≤ 68 →
      update_pmtu_next_lower ver now src_ip dst_ip from_mtu s =
        (.error (get_pmtu s src_ip dst_ip), s, false)) ∧
    (∀ v, next_lower_pmtu_plateau from_mtu = some v →
      update_pmtu_next_lower ver now src_ip dst_ip from_mtu s =
        ((update_pmtu_if_less ver now src_ip dst_ip v s).1.map (fun x => (x, v)),
          (update_pmtu_if_less ver now src_ip dst_ip v s).2.1,
          (update_pmtu_if_less ver now src_ip dst_ip v s).2.2)) := by
  have hnone : next_lower_pmtu_plateau from_mtu = none ↔ from_mtu ≤ 68 := by
    unfold next_lower_pmtu_plateau
    rw [List.find?_eq_none]
    constructor
    · intro h
      have h68 : (68 : Nat) ∈ PMTU_PLATEAUS := by decide
      have := h 68 h68
      simp at this
      omega
    · intro h x hx
      have hall : ∀ y ∈ PMTU_PLATEAUS, 68 ≤ y := by decide
      have : 68 ≤ x := hall x hx
      simp
      omega
  refine ⟨hnone, ?_, ?_, ?_⟩
  · intro v hv
    refine ⟨List.mem_of_find?_eq_some hv, ?_, ?_⟩
    · have := List.find?_some hv
      simpa using this
    · exact find_lt_of_descending from_mtu PMTU_PLATEAUS (by decide) v hv
  · intro h
    have := hnone.2 h
    unfold update_pmtu_next_lower
    rw [this]
  · intro v hv
    unfold update_pmtu_next_lower
    rw [hv]

/-- C4: `update_pmtu` returns `Err(prior)` iff `new_mtu < min_mtu(version)`,
leaving the whole cache state (entry, `pmtu`, `last_updated`) unchanged and
scheduling no timer; on accept it returns `Ok(prior)` with `prior = None`
exactly on insertion, stores `new_mtu` with `last_updated = now`, and
schedules the maintenance timer exactly when the first entry enters an
empty cache (given the singleton-timer invariant relating the flag to
non-emptiness). -/
theorem claim_C4 (ver : IpVersion) (now src_ip dst_ip new_mtu : Nat)
    (s : IpLayerPathMtuCache)
    (hinv : s.timer_scheduled = !s.cache.isEmpty) :
    ((∃ prior, (update_pmtu_inner ver now src_ip dst_ip new_mtu s).1 =
        .error prior) ↔ new_mtu < min_mtu ver) ∧
    (new_mtu < min_mtu ver →
      update_pmtu_inner ver now src_ip dst_ip new_mtu s =
        (.error (get_pmtu s src_ip dst_ip), s, false)) ∧
    (min_mtu ver ≤ new_mtu →
      (update_pmtu_inner ver now src_ip dst_ip new_mtu s).1 =
          .ok (get_pmtu s src_ip dst_ip) ∧
        ((update_pmtu_inner ver now src_ip dst_ip new_mtu s).1 = .ok none ↔
          alookup s.cache ⟨src_ip, dst_ip⟩ = none) ∧
        get_pmtu (update_pmtu_inner ver now src_ip dst_ip new_mtu s).2.1
            src_ip dst_ip = some new_mtu ∧
        get_last_updated (update_pmtu_inner ver now src_ip dst_ip new_mtu s).2.1
            src_ip dst_ip = some now ∧
        ((update_pmtu_inner ver now src_ip dst_ip new_mtu s).2.2 = true ↔
          s.cache.isEmpty = true)) := by
  by_cases hlt : new_mtu < min_mtu ver
  · have hr : update_pmtu_inner ver now src_ip dst_ip new_mtu s =
        (.error (get_pmtu s src_ip dst_ip), s, false) := by
      simp [update_pmtu_inner, hlt]
    refine ⟨?_, fun _ => hr, fun hge => absurd hlt (not_lt.2 hge)⟩
    simp [hr, hlt]
  · have hge := not_lt.1 hlt
    cases hlook : alookup s.cache (⟨src_ip, dst_ip⟩ : PathMtuCacheKey) with
    | some data =>
      have hne : s.cache ≠ [] := alookup_ne_nil _ _ _ hlook
      have hemp : s.cache.isEmpty = false := by
        cases h : s.cache.isEmpty with
        | false => rfl
        | true => exact absurd (List.isEmpty_iff.1 h) hne
      have hts : s.timer_scheduled = true := by rw [hinv, hemp]; rfl
      have hr : update_pmtu_inner ver now src_ip dst_ip new_mtu s =
          (.ok (some data.pmtu),
            { s with cache := aupdate s.cache ⟨src_ip, dst_ip⟩ ⟨new_mtu, now⟩ },
            false) := by
        simp [update_pmtu_inner, hlt, hlook, hts]
      have hup : alookup
          (aupdate s.cache (⟨src_ip, dst_ip⟩ : PathMtuCacheKey)
            (⟨new_mtu, now⟩ : PathMtuCacheData)) ⟨src_ip, dst_ip⟩ =
          some ⟨new_mtu, now⟩ := alookup_aupdate_self _ _ _ _ hlook
      refine ⟨?_, fun hc => absurd hc hlt, fun _ => ?_⟩
      · simp [hr, hlt]
      · refine ⟨?_, ?_, ?_, ?_, ?_⟩
        · simp [hr, get_pmtu, hlook]
        · simp [hr, hlook]
        · simp [hr, get_pmtu, hup]
        · simp [hr, get_last_updated, hup]
        · simp [hr, hemp]
    | none =>
      have hgp : get_pmtu s src_ip dst_ip = none := by simp [get_pmtu, hlook]
      cases hsched : s.timer_scheduled with
      | true =>
        have hemp : s.cache.isEmpty = false := by
          rw [hsched] at hinv
          cases hq : s.cache.isEmpty with
          | true => rw [hq] at hinv; exact absurd hinv (by decide)
          | false => rfl
        have hr : update_pmtu_inner ver now src_ip dst_ip new_mtu s =
            (.ok none,
              { s with cache :=
                  ((⟨src_ip, dst_ip⟩ : PathMtuCacheKey),
                    (⟨new_mtu, now⟩ : PathMtuCacheData)) :: s.cache },
              false) := by
          simp [update_pmtu_inner, hlt, hlook, hsched]
        refine ⟨by simp [hr, hlt], fun hc => absurd hc hlt, fun _ => ?_⟩
        refine ⟨by simp [hr, hgp], by simp [hr, hlook], ?_, ?_, by simp [hr, hemp]⟩
        · simp [hr, get_pmtu, alookup_cons_eq]
        · simp [hr, get_last_updated, alookup_cons_eq]
      | false =>
        have hemp : s.cache.isEmpty = true := by
          rw [hsched] at hinv
          cases hq : s.cache.isEmpty with
          | true => rfl
          | false => rw [hq] at hinv; exact absurd hinv (by decide)
        have hr : update_pmtu_inner ver now src_ip dst_ip new_mtu s =
            (.ok none,
              create_maintenance_timer
                { s with cache :=
                    ((⟨src_ip, dst_ip⟩ : PathMtuCacheKey),
                      (⟨new_mtu, now⟩ : PathMtuCacheData)) :: s.cache },
              true) := by
          simp [update_pmtu_inner, hlt, hlook, hsched]
        refine ⟨by simp [hr, hlt], fun hc => absurd hc hlt, fun _ => ?_⟩
        refine ⟨by simp [hr, hgp], by simp [hr, hlook], ?_, ?_, by simp [hr, hemp]⟩
        · simp [hr, create_maintenance_timer, get_pmtu, alookup_cons_eq]
        · simp [hr, create_maintenance_timer, get_last_updated, alookup_cons_eq]

/-- C4 witness: inserting MTU 100 for a fresh v4 path at time 7 into the empty
cache is accepted, returns no prior value, stores `(100, 7)`, and schedules
the maintenance timer. -/
theorem claim_C4_witness :
    (IpLayerPathMtuCache.new.timer_scheduled =
        !IpLayerPathMtuCache.new.cache.isEmpty) ∧
      ((update_pmtu_inner .v4 7 1 2 100 IpLayerPathMtuCache.new).1 =
          .ok (get_pmtu IpLayerPathMtuCache.new 1 2) ∧
        ((update_pmtu_inner .v4 7 1 2 100 IpLayerPathMtuCache.new).1 = .ok none ↔
          alookup IpLayerPathMtuCache.new.cache ⟨1, 2⟩ = none) ∧
        get_pmtu (update_pmtu_inner .v4 7 1 2 100 IpLayerPathMtuCache.new).2.1
            1 2 = some 100 ∧
        get_last_updated
            (update_pmtu_inner .v4 7 1 2 100 IpLayerPathMtuCache.new).2.1
            1 2 = some 7 ∧
        ((update_pmtu_inner .v4 7 1 2 100 IpLayerPathMtuCache.new).2.2 = true ↔
          IpLayerPathMtuCache.new.cache.isEmpty = true)) :=
  ⟨by decide,
    (claim_C4 .v4 7 1 2 100 IpLayerPathMtuCache.new (by decide)).2.2 (by decide)⟩

/-- C5: the maintenance sweep `handle_pmtu_timer` evicts exactly the entries
with `now - last_updated >= PMTU_STALE_TIMEOUT`, keeps every other entry with
its `pmtu` and `last_updated` intact, and afterwards schedules exactly one
new maintenance timer iff the cache is non-empty. -/
theorem claim_C5 (now : Nat) (s : IpLayerPathMtuCache)
    (hnd : (s.cache.map Prod.fst).Nodup)
    (hle : ∀ e ∈ s.cache, e.2.last_updated ≤ now) :
    (∀ k : PathMtuCacheKey,
      alookup (handle_pmtu_timer now s).1.cache k =
        (alookup s.cache k).bind
          (fun d => if PMTU_STALE_TIMEOUT ≤ now - d.last_updated then none
            else some d)) ∧
    ((handle_pmtu_timer now s).2 = true ↔
      (handle_pmtu_timer now s).1.cache.isEmpty = false) ∧
    (handle_pmtu_timer now s).1.timer_scheduled = (handle_pmtu_timer now s).2 := by
  have key : ∀ hr : IpLayerPathMtuCache × Bool,
      handle_pmtu_timer now s = hr →
      hr.1.cache = s.cache.filter
          (fun e => decide (now - e.2.last_updated < PMTU_STALE_TIMEOUT)) ∧
        (hr.2 = true ↔ hr.1.cache.isEmpty = false) ∧
        hr.1.timer_scheduled = hr.2 := by
    intro hr hhr
    cases hq : (s.cache.filter
        (fun e => decide (now - e.2.last_updated < PMTU_STALE_TIMEOUT))).isEmpty with
    | true =>
      have heq : handle_pmtu_timer now s =
          ((⟨s.cache.filter
              (fun e => decide (now - e.2.last_updated < PMTU_STALE_TIMEOUT)),
            false⟩ : IpLayerPathMtuCache), false) := by
        simp [handle_pmtu_timer, hq]
      rw [heq] at hhr
      subst hhr
      simp [hq]
    | false =>
      have heq : handle_pmtu_timer now s =
          (create_maintenance_timer
            (⟨s.cache.filter
                (fun e => decide (now - e.2.last_updated < PMTU_STALE_TIMEOUT)),
              false⟩ : IpLayerPathMtuCache), true) := by
        simp [handle_pmtu_timer, hq]
      rw [heq] at hhr
      subst hhr
      simp [create_maintenance_timer, hq]
  obtain ⟨hfc, hsch, hflag⟩ := key (handle_pmtu_timer now s) rfl
  refine ⟨?_, hsch, hflag⟩
  intro k
  rw [hfc, alookup_filter _ _ hnd k]
  cases alookup s.cache k with
  | none => rfl
  | some d =>
    simp only [Option.some_bind, decide_eq_true_eq]
    by_cases h : now - d.last_updated < PMTU_STALE_TIMEOUT
    · rw [if_pos h, if_neg (by omega)]
    · rw [if_neg h, if_pos (by omega)]

/-- C7: along any sequence of `update_pmtu_if_less` calls for a fixed path,
the stored PMTU values are non-increasing and bounded below by
`min_mtu(version)`; moreover a call with a prior value not exceeded by
`new_mtu` returns `Ok(prior)` and changes nothing. -/
theorem claim_C7 (ver : IpVersion) (src_ip dst_ip : Nat)
    (s : IpLayerPathMtuCache) (reqs : List (Nat × Nat))
    (hmin : ∀ p, get_pmtu s src_ip dst_ip = some p → min_mtu ver ≤ p) :
    (∀ q, get_pmtu (run_pmtu_updates ver src_ip dst_ip s reqs) src_ip dst_ip =
        some q → min_mtu ver ≤ q) ∧
    (∀ p q, get_pmtu s src_ip dst_ip = some p →
      get_pmtu (run_pmtu_updates ver src_ip dst_ip s reqs) src_ip dst_ip =
        some q → q ≤ p) ∧
    (∀ now new_mtu mtu, get_pmtu s src_ip dst_ip = some mtu → mtu ≤ new_mtu →
      update_pmtu_if_less ver now src_ip dst_ip new_mtu s =
        (.ok (some mtu), s, false)) := by
  have hlast : ∀ now new_mtu mtu, get_pmtu s src_ip dst_ip = some mtu →
      mtu ≤ new_mtu →
      update_pmtu_if_less ver now src_ip dst_ip new_mtu s =
        (.ok (some mtu), s, false) := by
    intro now new_mtu mtu hp hle
    simp only [update_pmtu_if_less, hp]
    rw [if_neg (by omega)]
  refine ⟨?_, ?_, hlast⟩
  · -- lower bound, by induction over the request list generalizing the state
    clear hlast
    induction reqs generalizing s with
    | nil => intro q hq; exact hmin q hq
    | cons r rest ih =>
      obtain ⟨now, mtu⟩ := r
      intro q hq
      refine ih (update_pmtu_if_less ver now src_ip dst_ip mtu s).2.1 ?_ q hq
      intro p hp
      cases hs : get_pmtu s src_ip dst_ip with
      | none =>
        rcases (update_pmtu_if_less_step ver now src_ip dst_ip mtu s).1 hs with
          h | ⟨h, hm⟩
        · rw [h] at hp; cases hp
        · rw [h] at hp; cases hp; exact hm
      | some p0 =>
        obtain ⟨q0, hq0, _, hq0min⟩ :=
          (update_pmtu_if_less_step ver now src_ip dst_ip mtu s).2 p0 hs
        rw [hq0] at hp
        cases hp
        exact hq0min (hmin p0 hs)
  · clear hlast
    induction reqs generalizing s with
    | nil =>
      intro p q hp hq
      simp only [run_pmtu_updates] at hq
      rw [hp] at hq; cases hq; exact le_refl p
    | cons r rest ih =>
      obtain ⟨now, mtu⟩ := r
      intro p q hp hq
      obtain ⟨q0, hq0, hq0le, hq0min⟩ :=
        (update_pmtu_if_less_step ver now src_ip dst_ip mtu s).2 p hp
      have hmin' : ∀ p', get_pmtu
          (update_pmtu_if_less ver now src_ip dst_ip mtu s).2.1 src_ip dst_ip =
            some p' → min_mtu ver ≤ p' := by
        intro p' hp'
        rw [hq0] at hp'
        cases hp'
        exact hq0min (hmin p hp)
      have := ih (update_pmtu_if_less ver now src_ip dst_ip mtu s).2.1 hmin'
        q0 q hq0 hq
      omega

/-- C7 witness: starting from the empty v4 cache and issuing the request
sequence of spec scenario S5 (`118`, then non-lower `150`, then lower `100`),
the final stored value is at least the v4 minimum MTU. -/
theorem claim_C7_witness : min_mtu .v4 ≤ 100 :=
  (claim_C7 .v4 1 2 IpLayerPathMtuCache.new [(1, 118), (2, 150), (3, 100)]
    (fun p hp => by simp [get_pmtu, alookup, IpLayerPathMtuCache.new] at hp)).1
    100 (by decide)

/-- C5 witness: sweeping at `now = 20000` a two-entry cache in which one
entry was updated at time 1 (stale) and the other at time 15000 (fresh)
keeps exactly the fresh entry and reschedules the timer. -/
theorem claim_C5_witness :
    alookup (handle_pmtu_timer 20000
        (IpLayerPathMtuCache.mk
          [(⟨1, 2⟩, ⟨118, 1⟩), (⟨3, 4⟩, ⟨1280, 15000⟩)] true)).1.cache
        ⟨1, 2⟩ =
      (alookup
        (IpLayerPathMtuCache.mk
          [(⟨1, 2⟩, ⟨118, 1⟩), (⟨3, 4⟩, ⟨1280, 15000⟩)] true).cache ⟨1, 2⟩).bind
        (fun d => if PMTU_STALE_TIMEOUT ≤ 20000 - d.last_updated then none
          else some d) :=
  (claim_C5 20000
    (IpLayerPathMtuCache.mk
      [(⟨1, 2⟩, ⟨118, 1⟩), (⟨3, 4⟩, ⟨1280, 15000⟩)] true)
    (by decide) (by decide)).1 ⟨1, 2⟩

/-- The fragment cache's entry-timer invariant: an entry exists for a key iff
a reassembly timer is scheduled for it. -/
def FragTimerInv (s : FragmentCacheState) : Prop :=
  ∀ k, (s.cache k).isSome = (s.timers k).isSome

/-- `get_or_create` preserves the entry-timer invariant (it installs the
entry and its timer together). -/
theorem get_or_create_inv (s : FragmentCacheState) (key : FragmentCacheKey)
    (hinv : FragTimerInv s) : FragTimerInv (get_or_create s key) := by
  intro k
  unfold get_or_create
  by_cases hc : (s.cache key).isSome
  · rw [if_pos hc]; exact hinv k
  · rw [if_neg hc]
    by_cases hk : k = key
    · simp [hk]
    · simp only [hk, if_neg hk]
      exact hinv k

/-- After `get_or_create`, the entry for the key is present. -/
theorem get_or_create_cache_isSome (s : FragmentCacheState)
    (key : FragmentCacheKey) :
    ((get_or_create s key).cache key).isSome = true := by
  unfold get_or_create
  by_cases hc : (s.cache key).isSome
  · rw [if_pos hc]; exact hc
  · rw [if_neg hc]; simp

/-- C2: `reassemble_packet` returns `InvalidKey` when no entry exists and
`MissingFragments` when the entry's gap list is non-empty, leaving the state
unchanged in both cases; with an entry whose gap list is empty, the entry and
its timer are removed (nothing else changes) regardless of the reassembly
outcome, the call's result is the helper's result, every helper error is
`PacketParsingError`, and a helper success means the buffer re-parsed. -/
theorem claim_C2 (chk : List Nat → Nat) (parse : List Nat → Bool)
    (s : FragmentCacheState) (key : FragmentCacheKey) (buffer : List Nat) :
    (s.cache key = none →
      reassemble_packet chk parse s key buffer = (.error .InvalidKey, s)) ∧
    (∀ fd, s.cache key = some fd → fd.missing_blocks ≠ [] →
      reassemble_packet chk parse s key buffer = (.error .MissingFragments, s)) ∧
    (∀ fd, s.cache key = some fd → fd.missing_blocks = [] →
      (reassemble_packet chk parse s key buffer).2.cache key = none ∧
      (reassemble_packet chk parse s key buffer).2.timers key = none ∧
      (∀ k, ¬k = key →
        (reassemble_packet chk parse s key buffer).2.cache k = s.cache k ∧
        (reassemble_packet chk parse s key buffer).2.timers k = s.timers k) ∧
      (reassemble_packet chk parse s key buffer).1 =
        reassemble_packet_helper_v4 chk parse buffer (fd.header.getD [])
          fd.body_fragments ∧
      (∀ e, (reassemble_packet chk parse s key buffer).1 = .error e →
        e = .PacketParsingError) ∧
      (∀ out, (reassemble_packet chk parse s key buffer).1 = .ok out →
        parse out = true)) := by
  refine ⟨?_, ?_, ?_⟩
  · intro hnone
    simp [reassemble_packet, hnone]
  · intro fd hfd hne
    have hemp : fd.missing_blocks.isEmpty = false := by
      cases hq : fd.missing_blocks.isEmpty with
      | false => rfl
      | true => exact absurd (List.isEmpty_iff.1 hq) hne
    simp only [reassemble_packet, hfd]
    rw [if_pos (by simp [hemp])]
  · intro fd hfd hmb
    have hemp : fd.missing_blocks.isEmpty = true := by simp [hmb]
    have hr : reassemble_packet chk parse s key buffer =
        (reassemble_packet_helper_v4 chk parse buffer (fd.header.getD [])
            fd.body_fragments,
          { cache := fun k => if k = key then none else s.cache k,
            timers := fun k => if k = key then none else s.timers k }) := by
      simp only [reassemble_packet, hfd]
      rw [if_neg (by simp [hemp])]
    rw [hr]
    refine ⟨by simp, by simp, ?_, rfl, ?_, ?_⟩
    · intro k hk
      exact ⟨by simp [hk], by simp [hk]⟩
    · exact (reassemble_helper_outcomes chk parse buffer (fd.header.getD [])
        fd.body_fragments).1
    · exact (reassemble_helper_outcomes chk parse buffer (fd.header.getD [])
        fd.body_fragments).2

/-- C2 witness: reassembling an unknown key from the empty fragment cache
fails with `InvalidKey` and changes nothing. -/
theorem claim_C2_witness :
    reassemble_packet (fun _ => 0) (fun _ => true)
        (FragmentCacheState.mk (fun _ => none) (fun _ => none)) ⟨1, 2, 3⟩ [] =
      (.error .InvalidKey,
        FragmentCacheState.mk (fun _ => none) (fun _ => none)) :=
  (claim_C2 (fun _ => 0) (fun _ => true)
    (FragmentCacheState.mk (fun _ => none) (fun _ => none)) ⟨1, 2, 3⟩ []).1 rfl

/-- After `process_fragment`, the cache state is one of: unchanged, the
`get_or_create` state for the packet's key, that state with the key's entry
and timer both removed (overlap discard), or that state with the key's entry
replaced and the timers untouched (accepted fragment). -/
theorem process_fragment_state_cases (s : FragmentCacheState) (p : Packet) :
    (process_fragment s p).2 = s ∨
    (∃ key, (process_fragment s p).2 = get_or_create s key) ∨
    (∃ key, (process_fragment s p).2 =
      { cache := fun k => if k = key then none else (get_or_create s key).cache k,
        timers := fun k => if k = key then none
          else (get_or_create s key).timers k }) ∨
    (∃ key fd, (process_fragment s p).2 =
      { cache := fun k => if k = key then some fd
          else (get_or_create s key).cache k,
        timers := (get_or_create s key).timers }) := by
  cases hp : p.fragment_data with
  | none => left; simp [process_fragment, hp]
  | some t =>
    obtain ⟨id, offset, m⟩ := t
    simp only [process_fragment, hp]
    by_cases h1 : offset = 0 ∧ m = false
    · left; rw [if_pos h1]
    rw [if_neg h1]
    by_cases h2 : p.body.length = 0
    · left; rw [if_pos h2]
    rw [if_neg h2]
    by_cases h3 : m = true ∧ p.body.length % FRAGMENT_BLOCK_SIZE ≠ 0
    · left; rw [if_pos h3]
    rw [if_neg h3]
    by_cases h4 : offset + (1 + (p.body.length - 1) / FRAGMENT_BLOCK_SIZE) - 1 >
        65535
    · right; left
      exact ⟨⟨p.src, p.dst, id⟩, by rw [if_pos h4]⟩
    rw [if_neg h4]
    by_cases h5 : offset + (1 + (p.body.length - 1) / FRAGMENT_BLOCK_SIZE) - 1 >
        MAX_FRAGMENT_BLOCKS
    · right; left
      exact ⟨⟨p.src, p.dst, id⟩, by rw [if_pos h5]⟩
    rw [if_neg h5]
    cases hg : find_gap ((get_or_create s ⟨p.src, p.dst, id⟩).cache
          ⟨p.src, p.dst, id⟩ |>.getD FragmentCacheData.new).missing_blocks
        (offset, offset + (1 + (p.body.length - 1) / FRAGMENT_BLOCK_SIZE) - 1) with
    | none =>
      right; right; left
      exact ⟨⟨p.src, p.dst, id⟩, rfl⟩
    | some found_gap =>
      right; right; right
      refine ⟨⟨p.src, p.dst, id⟩, ?_⟩
      dsimp only
      repeat' split
      all_goals exact ⟨_, rfl⟩

/-- C3: `find_gap` on a well-formed, disjoint gap list returns exactly the
(unique) containing gap, or `None` when none contains the range; for an
accepted fragment with range `[o, e]` inside found gap `G = [glo, ghi]`,
`process_fragment` removes `G`, inserts `[glo, o-1]` iff `glo < o`, and
inserts `[e+1, ghi]` iff `more` is set and `ghi > e` — and it returns
`InvalidFragment` when no containing gap exists. -/
theorem claim_C3 (s : FragmentCacheState) (p : Packet) (id offset : Nat)
    (m : Bool)
    (hfd : p.fragment_data = some (id, offset, m))
    (hnn : ¬(offset = 0 ∧ m = false))
    (hbody : ¬p.body.length = 0)
    (halign : ¬(m = true ∧ p.body.length % FRAGMENT_BLOCK_SIZE ≠ 0))
    (hrange : ¬(offset + (1 + (p.body.length - 1) / FRAGMENT_BLOCK_SIZE) - 1 >
      MAX_FRAGMENT_BLOCKS))
    (hwf : GapsWF ((get_or_create s ⟨p.src, p.dst, id⟩).cache
      ⟨p.src, p.dst, id⟩ |>.getD FragmentCacheData.new).missing_blocks)
    (hdisj : GapsDisjoint ((get_or_create s ⟨p.src, p.dst, id⟩).cache
      ⟨p.src, p.dst, id⟩ |>.getD FragmentCacheData.new).missing_blocks) :
    (∀ (mb : List (Nat × Nat)) (o2 e2 : Nat), GapsWF mb → GapsDisjoint mb →
      o2 ≤ e2 → ∀ g, find_gap mb (o2, e2) = some g ↔
        (g ∈ mb ∧ g.1 ≤ o2 ∧ e2 ≤ g.2)) ∧
    (find_gap ((get_or_create s ⟨p.src, p.dst, id⟩).cache
          ⟨p.src, p.dst, id⟩ |>.getD FragmentCacheData.new).missing_blocks
        (offset, offset + (1 + (p.body.length - 1) / FRAGMENT_BLOCK_SIZE) - 1) =
        none →
      (process_fragment s p).1 = .InvalidFragment) ∧
    (∀ g, find_gap ((get_or_create s ⟨p.src, p.dst, id⟩).cache
          ⟨p.src, p.dst, id⟩ |>.getD FragmentCacheData.new).missing_blocks
        (offset, offset + (1 + (p.body.length - 1) / FRAGMENT_BLOCK_SIZE) - 1) =
        some g →
      ∃ fd', (process_fragment s p).2.cache ⟨p.src, p.dst, id⟩ = some fd' ∧
        ∀ r, r ∈ fd'.missing_blocks ↔
          ((r ∈ ((get_or_create s ⟨p.src, p.dst, id⟩).cache
              ⟨p.src, p.dst, id⟩ |>.getD FragmentCacheData.new).missing_blocks ∧
            r ≠ g) ∨
          (g.1 < offset ∧ r = (g.1, offset - 1)) ∨
          (g.2 > offset + (1 + (p.body.length - 1) / FRAGMENT_BLOCK_SIZE) - 1 ∧
            m = true ∧
            r = (offset + (1 + (p.body.length - 1) / FRAGMENT_BLOCK_SIZE) - 1 + 1,
              g.2)))) := by
  have h65 : ¬(offset + (1 + (p.body.length - 1) / FRAGMENT_BLOCK_SIZE) - 1 >
      65535) := by
    simp only [MAX_FRAGMENT_BLOCKS] at hrange
    omega
  refine ⟨?_, ?_, ?_⟩
  · intro mb o2 e2 hwf2 hdisj2 hoe2 g
    exact find_gap_spec mb o2 e2 hwf2 hdisj2 hoe2 g
  · intro hgap
    simp only [process_fragment, hfd]
    rw [if_neg hnn, if_neg hbody, if_neg halign, if_neg h65, if_neg hrange, hgap]
  · intro g hgap
    have hst : ∃ bf hdr ts,
        (process_fragment s p).2.cache ⟨p.src, p.dst, id⟩ =
          some ⟨if g.2 > offset + (1 + (p.body.length - 1) / FRAGMENT_BLOCK_SIZE)
                  - 1 ∧ m = true then
              sortedInsert
                (if g.1 < offset then
                  sortedInsert
                    (((get_or_create s ⟨p.src, p.dst, id⟩).cache
                        ⟨p.src, p.dst, id⟩ |>.getD
                        FragmentCacheData.new).missing_blocks.erase g)
                    (g.1, offset - 1)
                else ((get_or_create s ⟨p.src, p.dst, id⟩).cache
                    ⟨p.src, p.dst, id⟩ |>.getD
                    FragmentCacheData.new).missing_blocks.erase g)
                (offset + (1 + (p.body.length - 1) / FRAGMENT_BLOCK_SIZE) - 1 + 1,
                  g.2)
            else
              if g.1 < offset then
                sortedInsert
                  (((get_or_create s ⟨p.src, p.dst, id⟩).cache
                      ⟨p.src, p.dst, id⟩ |>.getD
                      FragmentCacheData.new).missing_blocks.erase g)
                  (g.1, offset - 1)
              else ((get_or_create s ⟨p.src, p.dst, id⟩).cache
                  ⟨p.src, p.dst, id⟩ |>.getD
                  FragmentCacheData.new).missing_blocks.erase g,
            bf, hdr, ts⟩ := by
      simp only [process_fragment, hfd]
      rw [if_neg hnn, if_neg hbody, if_neg halign, if_neg h65, if_neg hrange,
        hgap]
      dsimp only
      repeat' split
      all_goals exact ⟨_, _, _, by dsimp only; rw [if_pos rfl]⟩
    obtain ⟨bf, hdr, ts, hcache⟩ := hst
    refine ⟨_, hcache, ?_⟩
    exact gap_update_mem _ g offset
      (offset + (1 + (p.body.length - 1) / FRAGMENT_BLOCK_SIZE) - 1) m
      (gaps_nodup _ hwf hdisj)

/-- C3 witness: the first fragment of a fresh datagram (range `[1, 1]`) fits
in the initial gap `[0, 65535]`, which `find_gap` finds and which contains
the range. -/
theorem claim_C3_witness :
    find_gap [(0, 65535)] (1, 1) = some (0, 65535) ↔
      ((0, 65535) ∈ [((0 : Nat), (65535 : Nat))] ∧ 0 ≤ 1 ∧ 1 ≤ 65535) :=
  (claim_C3 (FragmentCacheState.mk (fun _ => none) (fun _ => none))
    (Packet.mk 1 2 (some (5, 1, true)) [0, 1, 2, 3, 4, 5, 6, 7] []) 5 1 true
    rfl (by simp) (by simp) (by simp [FRAGMENT_BLOCK_SIZE])
    (by simp [FRAGMENT_BLOCK_SIZE, MAX_FRAGMENT_BLOCKS])
    (by intro g hg; simp [get_or_create, FragmentCacheData.new] at hg; simp [hg])
    (by simp [get_or_create, FragmentCacheData.new, GapsDisjoint])).1
    [(0, 65535)] 1 1
    (by intro g hg; simp at hg; simp [hg]) (by simp [GapsDisjoint]) (by omega)
    (0, 65535)

/-- C6: on successful IPv4 reassembly the output buffer is the captured
header followed by the body fragments concatenated in ascending
fragment-offset order (the heap's pop order is an ascending-sorted
permutation of the stored fragments), with the header rewritten in place:
bytes 2..4 carry the total byte count (an error is returned when that count
exceeds 65535), bytes 4..8 are zeroed, and bytes 10..12 carry the checksum
computed over the final header bytes excluding the checksum field itself. -/
theorem claim_C6 (chk : List Nat → Nat) (parse : List Nat → Bool)
    (buffer header : List Nat) (frags : List (Nat × List Nat))
    (hbuf : buffer.length =
      header.length + (frags.map (fun f => f.2.length)).sum)
    (hhdr : 12 ≤ header.length) :
    (popOrder frags).Perm frags ∧
    (popOrder frags).Pairwise (fun a b => a.1 ≤ b.1) ∧
    (buffer.length > 65535 →
      reassemble_packet_helper_v4 chk parse buffer header frags =
        .error .PacketParsingError) ∧
    (¬buffer.length > 65535 →
      ∃ B : List Nat,
        (parse B = true →
          reassemble_packet_helper_v4 chk parse buffer header frags = .ok B) ∧
        (parse B = false →
          reassemble_packet_helper_v4 chk parse buffer header frags =
            .error .PacketParsingError) ∧
        B.length = buffer.length ∧
        (∀ j : Nat, B[j]? =
          if j = 2 then some (buffer.length / 256)
          else if j = 3 then some (buffer.length % 256)
          else if 4 ≤ j ∧ j < 8 then some 0
          else if j = 10 then
            some (chk (B.take 10 ++
              (B.drop 12).take (header.length - 12)) / 256 % 256)
          else if j = 11 then
            some (chk (B.take 10 ++
              (B.drop 12).take (header.length - 12)) % 256)
          else (header ++ ((popOrder frags).map Prod.snd).join)[j]?)) := by
  have hperm : (popOrder frags).Perm frags :=
    popOrder_perm frags.length frags le_rfl
  have hsorted : (popOrder frags).Pairwise (fun a b => a.1 ≤ b.1) :=
    popOrder_sorted frags.length frags le_rfl
  have hJ : (((popOrder frags).map Prod.snd).join).length = (frags.map (fun f => f.2.length)).sum := by
    rw [List.length_join, List.map_map]
    exact (hperm.map _).sum_eq
  have hcnt : header.length + (((popOrder frags).map Prod.snd).join).length = buffer.length := by
    rw [hJ]; omega
  have hb0 : writeAt buffer 0 header = header ++ buffer.drop header.length := by
    unfold writeAt; simp
  have hb0len : (header ++ buffer.drop header.length).length = buffer.length := by
    simp; omega
  have hw : writeAt (header ++ buffer.drop header.length) header.length
      (((popOrder frags).map Prod.snd).join) = header ++ ((popOrder frags).map Prod.snd).join := by
    unfold writeAt
    rw [List.take_append_of_le_length (le_refl header.length),
      List.take_length,
      List.drop_eq_nil_of_le (by rw [hb0len]; omega), List.append_nil]
  have hasm2 : assembleBodies (writeAt buffer 0 header) header.length frags =
      (header ++ ((popOrder frags).map Prod.snd).join, buffer.length) := by
    rw [hb0, assembleBodies_spec frags.length frags _ header.length le_rfl
      (by rw [hb0len]; omega), hw, hcnt]
  refine ⟨hperm, hsorted, ?_, ?_⟩
  · intro hover
    simp only [reassemble_packet_helper_v4]
    rw [hasm2]
    dsimp only
    rw [if_pos hover]
  · intro hover
    have hasml : (header ++ ((popOrder frags).map Prod.snd).join).length = buffer.length := by
      rw [List.length_append]; exact hcnt
    have hb2len : (writeAt (header ++ ((popOrder frags).map Prod.snd).join) 2 [buffer.length / 256, buffer.length % 256]).length = buffer.length := by
      rw [writeAt_length _ _ _ (by rw [hasml]; omega), hasml]
      simp
      omega
    have hb3len : (writeAt (writeAt (header ++ ((popOrder frags).map Prod.snd).join) 2 [buffer.length / 256, buffer.length % 256]) 4 [0, 0, 0, 0]).length = buffer.length := by
      rw [writeAt_length _ _ _ (by rw [hb2len]; omega), hb2len]
      simp
      omega
    have hBlen : (writeAt (writeAt (writeAt (header ++ ((popOrder frags).map Prod.snd).join) 2 [buffer.length / 256, buffer.length % 256]) 4 [0, 0, 0, 0]) 10 [chk ((writeAt (writeAt (header ++ ((popOrder frags).map Prod.snd).join) 2 [buffer.length / 256, buffer.length % 256]) 4 [0, 0, 0, 0]).take 10 ++ ((writeAt (writeAt (header ++ ((popOrder frags).map Prod.snd).join) 2 [buffer.length / 256, buffer.length % 256]) 4 [0, 0, 0, 0]).drop 12).take (header.length - 12)) / 256 % 256, chk ((writeAt (writeAt (header ++ ((popOrder frags).map Prod.snd).join) 2 [buffer.length / 256, buffer.length % 256]) 4 [0, 0, 0, 0]).take 10 ++ ((writeAt (writeAt (header ++ ((popOrder frags).map Prod.snd).join) 2 [buffer.length / 256, buffer.length % 256]) 4 [0, 0, 0, 0]).drop 12).take (header.length - 12)) % 256]).length = buffer.length := by
      rw [writeAt_length _ _ _ (by rw [hb3len]; omega), hb3len]
      simp
      omega
    have htk : (writeAt (writeAt (writeAt (header ++ ((popOrder frags).map Prod.snd).join) 2 [buffer.length / 256, buffer.length % 256]) 4 [0, 0, 0, 0]) 10 [chk ((writeAt (writeAt (header ++ ((popOrder frags).map Prod.snd).join) 2 [buffer.length / 256, buffer.length % 256]) 4 [0, 0, 0, 0]).take 10 ++ ((writeAt (writeAt (header ++ ((popOrder frags).map Prod.snd).join) 2 [buffer.length / 256, buffer.length % 256]) 4 [0, 0, 0, 0]).drop 12).take (header.length - 12)) / 256 % 256, chk ((writeAt (writeAt (header ++ ((popOrder frags).map Prod.snd).join) 2 [buffer.length / 256, buffer.length % 256]) 4 [0, 0, 0, 0]).take 10 ++ ((writeAt (writeAt (header ++ ((popOrder frags).map Prod.snd).join) 2 [buffer.length / 256, buffer.length % 256]) 4 [0, 0, 0, 0]).drop 12).take (header.length - 12)) % 256]).take 10 = (writeAt (writeAt (header ++ ((popOrder frags).map Prod.snd).join) 2 [buffer.length / 256, buffer.length % 256]) 4 [0, 0, 0, 0]).take 10 :=
      writeAt_take_prefix _ 10 _ (by rw [hb3len]; omega)
    have hdp : (writeAt (writeAt (writeAt (header ++ ((popOrder frags).map Prod.snd).join) 2 [buffer.length / 256, buffer.length % 256]) 4 [0, 0, 0, 0]) 10 [chk ((writeAt (writeAt (header ++ ((popOrder frags).map Prod.snd).join) 2 [buffer.length / 256, buffer.length % 256]) 4 [0, 0, 0, 0]).take 10 ++ ((writeAt (writeAt (header ++ ((popOrder frags).map Prod.snd).join) 2 [buffer.length / 256, buffer.length % 256]) 4 [0, 0, 0, 0]).drop 12).take (header.length - 12)) / 256 % 256, chk ((writeAt (writeAt (header ++ ((popOrder frags).map Prod.snd).join) 2 [buffer.length / 256, buffer.length % 256]) 4 [0, 0, 0, 0]).take 10 ++ ((writeAt (writeAt (header ++ ((popOrder frags).map Prod.snd).join) 2 [buffer.length / 256, buffer.length % 256]) 4 [0, 0, 0, 0]).drop 12).take (header.length - 12)) % 256]).drop 12 = (writeAt (writeAt (header ++ ((popOrder frags).map Prod.snd).join) 2 [buffer.length / 256, buffer.length % 256]) 4 [0, 0, 0, 0]).drop 12 := by
      have h12 := writeAt_drop_suffix (writeAt (writeAt (header ++ ((popOrder frags).map Prod.snd).join) 2 [buffer.length / 256, buffer.length % 256]) 4 [0, 0, 0, 0]) 10
        ([chk ((writeAt (writeAt (header ++ ((popOrder frags).map Prod.snd).join) 2 [buffer.length / 256, buffer.length % 256]) 4 [0, 0, 0, 0]).take 10 ++ ((writeAt (writeAt (header ++ ((popOrder frags).map Prod.snd).join) 2 [buffer.length / 256, buffer.length % 256]) 4 [0, 0, 0, 0]).drop 12).take (header.length - 12)) / 256 % 256, chk ((writeAt (writeAt (header ++ ((popOrder frags).map Prod.snd).join) 2 [buffer.length / 256, buffer.length % 256]) 4 [0, 0, 0, 0]).take 10 ++ ((writeAt (writeAt (header ++ ((popOrder frags).map Prod.snd).join) 2 [buffer.length / 256, buffer.length % 256]) 4 [0, 0, 0, 0]).drop 12).take (header.length - 12)) % 256]) (by rw [hb3len]; simp; omega)
      simpa using h12
    have hhelp : reassemble_packet_helper_v4 chk parse buffer header frags =
        if parse (writeAt (writeAt (writeAt (header ++ ((popOrder frags).map Prod.snd).join) 2 [buffer.length / 256, buffer.length % 256]) 4 [0, 0, 0, 0]) 10 [chk ((writeAt (writeAt (header ++ ((popOrder frags).map Prod.snd).join) 2 [buffer.length / 256, buffer.length % 256]) 4 [0, 0, 0, 0]).take 10 ++ ((writeAt (writeAt (header ++ ((popOrder frags).map Prod.snd).join) 2 [buffer.length / 256, buffer.length % 256]) 4 [0, 0, 0, 0]).drop 12).take (header.length - 12)) / 256 % 256, chk ((writeAt (writeAt (header ++ ((popOrder frags).map Prod.snd).join) 2 [buffer.length / 256, buffer.length % 256]) 4 [0, 0, 0, 0]).take 10 ++ ((writeAt (writeAt (header ++ ((popOrder frags).map Prod.snd).join) 2 [buffer.length / 256, buffer.length % 256]) 4 [0, 0, 0, 0]).drop 12).take (header.length - 12)) % 256]) = true then .ok (writeAt (writeAt (writeAt (header ++ ((popOrder frags).map Prod.snd).join) 2 [buffer.length / 256, buffer.length % 256]) 4 [0, 0, 0, 0]) 10 [chk ((writeAt (writeAt (header ++ ((popOrder frags).map Prod.snd).join) 2 [buffer.length / 256, buffer.length % 256]) 4 [0, 0, 0, 0]).take 10 ++ ((writeAt (writeAt (header ++ ((popOrder frags).map Prod.snd).join) 2 [buffer.length / 256, buffer.length % 256]) 4 [0, 0, 0, 0]).drop 12).take (header.length - 12)) / 256 % 256, chk ((writeAt (writeAt (header ++ ((popOrder frags).map Prod.snd).join) 2 [buffer.length / 256, buffer.length % 256]) 4 [0, 0, 0, 0]).take 10 ++ ((writeAt (writeAt (header ++ ((popOrder frags).map Prod.snd).join) 2 [buffer.length / 256, buffer.length % 256]) 4 [0, 0, 0, 0]).drop 12).take (header.length - 12)) % 256])
        else .error .PacketParsingError := by
      simp only [reassemble_packet_helper_v4]
      rw [hasm2]
      dsimp only
      rw [if_neg hover]
    refine ⟨writeAt (writeAt (writeAt (header ++ ((popOrder frags).map Prod.snd).join) 2 [buffer.length / 256, buffer.length % 256]) 4 [0, 0, 0, 0]) 10 [chk ((writeAt (writeAt (header ++ ((popOrder frags).map Prod.snd).join) 2 [buffer.length / 256, buffer.length % 256]) 4 [0, 0, 0, 0]).take 10 ++ ((writeAt (writeAt (header ++ ((popOrder frags).map Prod.snd).join) 2 [buffer.length / 256, buffer.length % 256]) 4 [0, 0, 0, 0]).drop 12).take (header.length - 12)) / 256 % 256, chk ((writeAt (writeAt (header ++ ((popOrder frags).map Prod.snd).join) 2 [buffer.length / 256, buffer.length % 256]) 4 [0, 0, 0, 0]).take 10 ++ ((writeAt (writeAt (header ++ ((popOrder frags).map Prod.snd).join) 2 [buffer.length / 256, buffer.length % 256]) 4 [0, 0, 0, 0]).drop 12).take (header.length - 12)) % 256], ?_, ?_, hBlen, ?_⟩
    · intro hp
      rw [hhelp, if_pos hp]
    · intro hp
      rw [hhelp, if_neg (by rw [hp]; simp)]
    · intro j
      rw [htk, hdp]
      have e1 := writeAt_getElem (writeAt (writeAt (header ++ ((popOrder frags).map Prod.snd).join) 2 [buffer.length / 256, buffer.length % 256]) 4 [0, 0, 0, 0]) 10
        ([chk ((writeAt (writeAt (header ++ ((popOrder frags).map Prod.snd).join) 2 [buffer.length / 256, buffer.length % 256]) 4 [0, 0, 0, 0]).take 10 ++ ((writeAt (writeAt (header ++ ((popOrder frags).map Prod.snd).join) 2 [buffer.length / 256, buffer.length % 256]) 4 [0, 0, 0, 0]).drop 12).take (header.length - 12)) / 256 % 256, chk ((writeAt (writeAt (header ++ ((popOrder frags).map Prod.snd).join) 2 [buffer.length / 256, buffer.length % 256]) 4 [0, 0, 0, 0]).take 10 ++ ((writeAt (writeAt (header ++ ((popOrder frags).map Prod.snd).join) 2 [buffer.length / 256, buffer.length % 256]) 4 [0, 0, 0, 0]).drop 12).take (header.length - 12)) % 256]) j (by rw [hb3len]; simp; omega)
      have e2 := writeAt_getElem (writeAt (header ++ ((popOrder frags).map Prod.snd).join) 2 [buffer.length / 256, buffer.length % 256]) 4 [0, 0, 0, 0] j
        (by rw [hb2len]; simp; omega)
      have e3 := writeAt_getElem (header ++ ((popOrder frags).map Prod.snd).join) 2 [buffer.length / 256, buffer.length % 256] j
        (by rw [hasml]; simp; omega)
      rw [e1, e2, e3]
      simp only [List.length_cons, List.length_nil]
      have hj : j = 0 ∨ j = 1 ∨ j = 2 ∨ j = 3 ∨ j = 4 ∨ j = 5 ∨ j = 6 ∨
          j = 7 ∨ j = 8 ∨ j = 9 ∨ j = 10 ∨ j = 11 ∨ 12 ≤ j := by omega
      rcases hj with rfl|rfl|rfl|rfl|rfl|rfl|rfl|rfl|rfl|rfl|rfl|rfl|hj
      · simp
      · simp
      · simp
      · simp
      · simp
      · simp
      · simp
      · simp
      · simp
      · simp
      · simp
      · simp
      · split_ifs <;> first | rfl | omega

/-- C6 witness: for a two-fragment heap stored out of order, the pop order
used by reassembly is a permutation of the stored fragments (and, per the
theorem, sorted ascending by offset). -/
theorem claim_C6_witness :
    (popOrder [(1, [10, 11, 12, 13, 14, 15, 16, 17]),
        (0, [2, 3, 4, 5, 6, 7, 8, 9])]).Perm
      [(1, [10, 11, 12, 13, 14, 15, 16, 17]), (0, [2, 3, 4, 5, 6, 7, 8, 9])] :=
  (claim_C6 (fun _ => 0) (fun _ => true) (List.replicate 28 0)
    (List.replicate 12 0)
    [(1, [10, 11, 12, 13, 14, 15, 16, 17]), (0, [2, 3, 4, 5, 6, 7, 8, 9])]
    (by decide) (by decide)).1

/-- C9: every public fragment-cache operation preserves the invariant that a
`FragmentEntry` exists for a key iff a reassembly timer for that key is
scheduled; entry creation schedules the timer and every removal path
(reassembly, overlap discard, timeout firing) removes both together. -/
theorem claim_C9 (s : FragmentCacheState) (hinv : FragTimerInv s) :
    (∀ p, FragTimerInv (process_fragment s p).2) ∧
    (∀ chk parse key buffer,
      FragTimerInv (reassemble_packet chk parse s key buffer).2) ∧
    (∀ key, (s.timers key).isSome = true →
      FragTimerInv (fire_reassembly_timeout s key)) := by
  refine ⟨?_, ?_, ?_⟩
  · intro p
    rcases process_fragment_state_cases s p with h | ⟨key, h⟩ | ⟨key, h⟩ |
      ⟨key, fd, h⟩
    · rw [h]; exact hinv
    · rw [h]; exact get_or_create_inv s key hinv
    · rw [h]
      intro k
      dsimp only
      by_cases hk : k = key
      · rw [if_pos hk, if_pos hk]
        rfl
      · rw [if_neg hk, if_neg hk]
        exact get_or_create_inv s key hinv k
    · rw [h]
      intro k
      dsimp only
      by_cases hk : k = key
      · subst hk
        rw [if_pos rfl, ← get_or_create_inv s k hinv k,
          get_or_create_cache_isSome]
        rfl
      · rw [if_neg hk]
        exact get_or_create_inv s key hinv k
  · intro chk parse key buffer
    cases hc : s.cache key with
    | none => simpa [reassemble_packet, hc] using hinv
    | some fd =>
      simp only [reassemble_packet, hc]
      by_cases hm : fd.missing_blocks.isEmpty
      · rw [if_neg (by simpa using hm)]
        intro k
        by_cases hk : k = key
        · simp [hk]
        · simp only [hk, if_neg hk]
          exact hinv k
      · rw [if_pos (by simpa using hm)]
        exact hinv
  · intro key _
    intro k
    unfold fire_reassembly_timeout handle_reassembly_timeout
    by_cases hk : k = key
    · simp [hk]
    · simp only [hk, if_neg hk]
      exact hinv k

/-- C9 witness: the invariant holds for a one-entry state and is preserved by
processing a further fragment of the same datagram. -/
theorem claim_C9_witness :
    FragTimerInv
      (process_fragment
        (FragmentCacheState.mk
          (fun k => if k = ⟨1, 2, 7⟩ then some FragmentCacheData.new else none)
          (fun k => if k = ⟨1, 2, 7⟩ then some REASSEMBLY_TIMEOUT_SECONDS
            else none))
        (Packet.mk 1 2 (some (7, 1, true)) [0, 1, 2, 3, 4, 5, 6, 7] [9])).2 :=
  (claim_C9
    (FragmentCacheState.mk
      (fun k => if k = ⟨1, 2, 7⟩ then some FragmentCacheData.new else none)
      (fun k => if k = ⟨1, 2, 7⟩ then some REASSEMBLY_TIMEOUT_SECONDS else none))
    (fun k => by
      by_cases h : k = (⟨1, 2, 7⟩ : FragmentCacheKey) <;> simp [h])).1
    (Packet.mk 1 2 (some (7, 1, true)) [0, 1, 2, 3, 4, 5, 6, 7] [9])

/-- C1 counterexample: a non-terminal fragment with a 7-byte body addressed
to a key that already has a cache entry returns `InvalidFragment`, yet the
pre-existing entry and its timer are both still present afterwards —
contradicting the claim that every `InvalidFragment` return discards the
key's state. -/
theorem claim_C1_counterexample :
    (process_fragment
        (FragmentCacheState.mk
          (fun k => if k = ⟨1, 2, 5⟩ then some FragmentCacheData.new else none)
          (fun k => if k = ⟨1, 2, 5⟩ then some REASSEMBLY_TIMEOUT_SECONDS
            else none))
        (Packet.mk 1 2 (some (5, 1, true)) [0, 1, 2, 3, 4, 5, 6] [])).1 =
      .InvalidFragment ∧
    ((process_fragment
        (FragmentCacheState.mk
          (fun k => if k = ⟨1, 2, 5⟩ then some FragmentCacheData.new else none)
          (fun k => if k = ⟨1, 2, 5⟩ then some REASSEMBLY_TIMEOUT_SECONDS
            else none))
        (Packet.mk 1 2 (some (5, 1, true)) [0, 1, 2, 3, 4, 5, 6] [])).2.cache
        ⟨1, 2, 5⟩).isSome = true ∧
    ((process_fragment
        (FragmentCacheState.mk
          (fun k => if k = ⟨1, 2, 5⟩ then some FragmentCacheData.new else none)
          (fun k => if k = ⟨1, 2, 5⟩ then some REASSEMBLY_TIMEOUT_SECONDS
            else none))
        (Packet.mk 1 2 (some (5, 1, true)) [0, 1, 2, 3, 4, 5, 6] [])).2.timers
        ⟨1, 2, 5⟩).isSome = true := by
  refine ⟨rfl, rfl, rfl⟩

/-- C1 amended: of the three `InvalidFragment` paths, only the overlap path
(no containing gap) discards the key's state and cancels its timer.  The
non-terminal misalignment path returns with the cache completely untouched,
and the block-range path returns with the (possibly just created) entry and
its timer still in place. -/
theorem claim_C1_amended (s : FragmentCacheState) (p : Packet) (id offset : Nat)
    (m : Bool)
    (hfd : p.fragment_data = some (id, offset, m))
    (hnn : ¬(offset = 0 ∧ m = false))
    (hbody : ¬p.body.length = 0)
    (hinv : ∀ k, (s.cache k).isSome = (s.timers k).isSome) :
    ((m = true ∧ p.body.length % FRAGMENT_BLOCK_SIZE ≠ 0) →
      process_fragment s p = (.InvalidFragment, s)) ∧
    (¬(m = true ∧ p.body.length % FRAGMENT_BLOCK_SIZE ≠ 0) →
      offset + (1 + (p.body.length - 1) / FRAGMENT_BLOCK_SIZE) - 1 >
        MAX_FRAGMENT_BLOCKS →
      process_fragment s p =
          (.InvalidFragment, get_or_create s ⟨p.src, p.dst, id⟩) ∧
        ((get_or_create s ⟨p.src, p.dst, id⟩).cache ⟨p.src, p.dst, id⟩).isSome =
          true ∧
        ((get_or_create s ⟨p.src, p.dst, id⟩).timers ⟨p.src, p.dst, id⟩).isSome =
          true) ∧
    (¬(m = true ∧ p.body.length % FRAGMENT_BLOCK_SIZE ≠ 0) →
      ¬(offset + (1 + (p.body.length - 1) / FRAGMENT_BLOCK_SIZE) - 1 >
        MAX_FRAGMENT_BLOCKS) →
      find_gap ((get_or_create s ⟨p.src, p.dst, id⟩).cache
            ⟨p.src, p.dst, id⟩ |>.getD FragmentCacheData.new).missing_blocks
          (offset, offset + (1 + (p.body.length - 1) / FRAGMENT_BLOCK_SIZE) - 1) =
        none →
      (process_fragment s p).1 = .InvalidFragment ∧
        (process_fragment s p).2.cache ⟨p.src, p.dst, id⟩ = none ∧
        (process_fragment s p).2.timers ⟨p.src, p.dst, id⟩ = none ∧
        ∀ k, ¬k = (⟨p.src, p.dst, id⟩ : FragmentCacheKey) →
          (process_fragment s p).2.cache k = (get_or_create s ⟨p.src, p.dst, id⟩).cache k ∧
          (process_fragment s p).2.timers k = (get_or_create s ⟨p.src, p.dst, id⟩).timers k) := by
  refine ⟨?_, ?_, ?_⟩
  · intro halign
    simp only [process_fragment, hfd]
    rw [if_neg hnn, if_neg hbody, if_pos halign]
  · intro halign hrange
    refine ⟨?_, ?_, ?_⟩
    · simp only [process_fragment, hfd]
      rw [if_neg hnn, if_neg hbody, if_neg halign]
      by_cases h65 : offset + (1 + (p.body.length - 1) / FRAGMENT_BLOCK_SIZE) - 1 >
          65535
      · rw [if_pos h65]
      · rw [if_neg h65, if_pos hrange]
    · unfold get_or_create
      by_cases hk : (s.cache ⟨p.src, p.dst, id⟩).isSome
      · rw [if_pos hk]; exact hk
      · rw [if_neg hk]; simp
    · unfold get_or_create
      by_cases hk : (s.cache ⟨p.src, p.dst, id⟩).isSome
      · rw [if_pos hk, ← hinv]; exact hk
      · rw [if_neg hk]; simp
  · intro halign hrange hgap
    have h65 : ¬(offset + (1 + (p.body.length - 1) / FRAGMENT_BLOCK_SIZE) - 1 >
        65535) := by
      simp only [MAX_FRAGMENT_BLOCKS] at hrange
      omega
    have hr : process_fragment s p =
        (.InvalidFragment,
          { cache := fun k => if k = ⟨p.src, p.dst, id⟩ then none
              else (get_or_create s ⟨p.src, p.dst, id⟩).cache k,
            timers := fun k => if k = ⟨p.src, p.dst, id⟩ then none
              else (get_or_create s ⟨p.src, p.dst, id⟩).timers k }) := by
      simp only [process_fragment, hfd]
      rw [if_neg hnn, if_neg hbody, if_neg halign, if_neg h65, if_neg hrange, hgap]
    rw [hr]
    refine ⟨rfl, by simp, by simp, ?_⟩
    intro k hk
    exact ⟨by simp [hk], by simp [hk]⟩

/-- C1 amended witness: the misaligned-body path applied to a single-entry
cache leaves the state untouched. -/
theorem claim_C1_amended_witness :
    process_fragment
        (FragmentCacheState.mk
          (fun k => if k = ⟨3, 4, 9⟩ then some FragmentCacheData.new else none)
          (fun k => if k = ⟨3, 4, 9⟩ then some REASSEMBLY_TIMEOUT_SECONDS
            else none))
        (Packet.mk 3 4 (some (9, 2, true)) [10, 11, 12] []) =
      (.InvalidFragment,
        FragmentCacheState.mk
          (fun k => if k = ⟨3, 4, 9⟩ then some FragmentCacheData.new else none)
          (fun k => if k = ⟨3, 4, 9⟩ then some REASSEMBLY_TIMEOUT_SECONDS
            else none)) :=
  (claim_C1_amended
    (FragmentCacheState.mk
      (fun k => if k = ⟨3, 4, 9⟩ then some FragmentCacheData.new else none)
      (fun k => if k = ⟨3, 4, 9⟩ then some REASSEMBLY_TIMEOUT_SECONDS else none))
    (Packet.mk 3 4 (some (9, 2, true)) [10, 11, 12] []) 9 2 true rfl
    (by simp) (by simp)
    (fun k => by by_cases h : k = (⟨3, 4, 9⟩ : FragmentCacheKey) <;> simp [h])).1
    ⟨rfl, by decide⟩

/-- C10: a fragmented, non-empty, block-aligned packet whose block range ends
beyond `MAX_FRAGMENT_BLOCKS` (which subsumes `u16` overflow of the range end)
yields `InvalidFragment` without removing the cache entry; when no entry
existed for the key, the call has already created a fresh entry and scheduled
its reassembly timer, and both remain after the call. -/
theorem claim_C10 (s : FragmentCacheState) (p : Packet) (id offset : Nat)
    (m : Bool)
    (hfd : p.fragment_data = some (id, offset, m))
    (hnn : ¬(offset = 0 ∧ m = false))
    (hbody : ¬p.body.length = 0)
    (halign : ¬(m = true ∧ p.body.length % FRAGMENT_BLOCK_SIZE ≠ 0))
    (hrange : offset + (1 + (p.body.length - 1) / FRAGMENT_BLOCK_SIZE) - 1 >
      MAX_FRAGMENT_BLOCKS)
    (habsent : s.cache ⟨p.src, p.dst, id⟩ = none) :
    process_fragment s p =
      (.InvalidFragment, get_or_create s ⟨p.src, p.dst, id⟩) ∧
    (get_or_create s ⟨p.src, p.dst, id⟩).cache ⟨p.src, p.dst, id⟩ =
      some FragmentCacheData.new ∧
    (get_or_create s ⟨p.src, p.dst, id⟩).timers ⟨p.src, p.dst, id⟩ =
      some REASSEMBLY_TIMEOUT_SECONDS := by
  refine ⟨?_, ?_, ?_⟩
  · simp only [process_fragment, hfd]
    rw [if_neg hnn, if_neg hbody, if_neg halign]
    by_cases h65 : offset + (1 + (p.body.length - 1) / FRAGMENT_BLOCK_SIZE) - 1 >
        65535
    · rw [if_pos h65]
    · rw [if_neg h65, if_pos hrange]
  · simp [get_or_create, habsent]
  · simp [get_or_create, habsent]

/-- C10 witness: a fragment with offset 8191 and a 16-byte body (block range
`[8191, 8192]`) against the empty cache. -/
theorem claim_C10_witness :
    process_fragment
        (FragmentCacheState.mk (fun _ => none) (fun _ => none))
        (Packet.mk 1 2 (some (5, 8191, true))
          [0, 1, 2, 3, 4, 5, 6, 7, 8, 9, 10, 11, 12, 13, 14, 15] []) =
      (.InvalidFragment,
        get_or_create (FragmentCacheState.mk (fun _ => none) (fun _ => none))
          ⟨1, 2, 5⟩) ∧
    (get_or_create (FragmentCacheState.mk (fun _ => none) (fun _ => none))
        ⟨1, 2, 5⟩).cache ⟨1, 2, 5⟩ = some FragmentCacheData.new ∧
    (get_or_create (FragmentCacheState.mk (fun _ => none) (fun _ => none))
        ⟨1, 2, 5⟩).timers ⟨1, 2, 5⟩ = some REASSEMBLY_TIMEOUT_SECONDS :=
  claim_C10 (FragmentCacheState.mk (fun _ => none) (fun _ => none))
    (Packet.mk 1 2 (some (5, 8191, true))
      [0, 1, 2, 3, 4, 5, 6, 7, 8, 9, 10, 11, 12, 13, 14, 15] [])
    5 8191 true rfl (by simp) (by simp) (by simp [FRAGMENT_BLOCK_SIZE])
    (by simp [FRAGMENT_BLOCK_SIZE, MAX_FRAGMENT_BLOCKS]) rfl

/-- C8 witness: at `from = 1280` the chosen plateau is 1006 and it is the
greatest plateau below 1280. -/
theorem claim_C8_witness :
    next_lower_pmtu_plateau 1280 = some 1006 ∧
      (1006 ∈ PMTU_PLATEAUS ∧ 1006 < 1280 ∧
        ∀ p ∈ PMTU_PLATEAUS, p < 1280 → p ≤ 1006) :=
  ⟨by decide,
    (claim_C8 .v4 0 1 2 1280 IpLayerPathMtuCache.new).2.1 1006 (by decide)⟩

end Netstack3
